import Mathlib

/-!
Verification of the bulk conversion orchestrator of the markitdown
repository (packages/markitdown/src/markitdown/bulk_converter/_bulk.py),
as a shallow embedding in Lean 4.

Modelling conventions:
  * a filesystem path is a list of directory components plus a file name
    split into stem and extension, mirroring pathlib stem/suffix;
  * the destination filesystem is an association list from paths to file
    contents plus a set (list) of existing directories;
  * the source tree walked by os.walk is an explicit directory tree;
  * the external converter (MarkItDown.convert_local) is an opaque
    function returning either markdown text or an error description;
  * machine integers are Nat (sizes and counters never overflow in the
    source, which uses Python arbitrary precision integers);
  * the run additionally records an instrumentation trace: the list of
    converter invocations and the list of write events (destination path
    of an atomic replace, paired with whether that path existed before),
    which lets ordering and no-write claims be stated.
-/

namespace MarkItDown

/-- Decimal rendering of a natural number, the embedding of Python str(i)
for a nonnegative integer.  Fuel-based so that it reduces definitionally. -/
def natStrAux : Nat → Nat → List Char
  | 0, _ => []
  | fuel + 1, n => if n = 0 then [] else natStrAux fuel (n / 10) ++ [Nat.digitChar (n % 10)]

/-- Decimal string of a Nat, as Python str() renders it. -/
def natStr (n : Nat) : String := if n = 0 then "0" else ⟨natStrAux n n⟩

/-- ASCII whitespace, the characters Python str.split and str.lstrip treat
as separators: space, tab, newline, carriage return, vertical tab, form feed. -/
def isSpace (c : Char) : Bool :=
  c == ' ' || c == '\t' || c == '\n' || c == '\r' || c == Char.ofNat 11 || c == Char.ofNat 12

/-- Accumulator pass of Python str.split with no arguments: maximal runs of
non-whitespace characters, with empty tokens dropped. -/
def pySplitAux : List Char → List Char → List (List Char)
  | [], acc => if acc.isEmpty then [] else [acc.reverse]
  | c :: cs, acc =>
    if isSpace c then
      if acc.isEmpty then pySplitAux cs [] else acc.reverse :: pySplitAux cs []
    else pySplitAux cs (c :: acc)

/-- Python str.split() with no arguments. -/
def pySplit (l : List Char) : List (List Char) := pySplitAux l []

/-- Line break characters recognized by Python str.splitlines. -/
def isLineBreak (c : Char) : Bool :=
  c == '\n' || c == '\r' || c == Char.ofNat 11 || c == Char.ofNat 12 ||
  c == Char.ofNat 28 || c == Char.ofNat 29 || c == Char.ofNat 30 ||
  c == Char.ofNat 133 || c == Char.ofNat 8232 || c == Char.ofNat 8233

/-- Accumulator pass of Python str.splitlines: CRLF counts as a single
break, and no trailing empty line is produced. -/
def pySplitlinesAux : List Char → List Char → List (List Char)
  | [], acc => if acc.isEmpty then [] else [acc.reverse]
  | '\r' :: '\n' :: cs, acc => acc.reverse :: pySplitlinesAux cs []
  | c :: cs, acc =>
    if isLineBreak c then acc.reverse :: pySplitlinesAux cs []
    else pySplitlinesAux cs (c :: acc)

/-- Python str.splitlines(). -/
def pySplitlines (l : List Char) : List (List Char) := pySplitlinesAux l []

/-- Embedding of the helper count_words_and_headings: the word count is
len(markdown.split()) and the heading count is the number of lines whose
first character after lstrip() is the # marker. -/
def count_words_and_headings (markdown : String) : Nat × Nat :=
  ((pySplit markdown.data).length,
   ((pySplitlines markdown.data).filter
      (fun line => (line.dropWhile (fun c => isSpace c)).head? == some '#')).length)

/-- Python str.lower restricted to the ASCII case mapping. -/
def lowerStr (s : String) : String := ⟨s.data.map Char.toLower⟩

/-- Python str.lstrip with the single dot argument: remove all leading dots. -/
def stripDots (s : String) : String := ⟨s.data.dropWhile (fun c => c == '.')⟩

/-- File name split into stem and extension, as pathlib computes them; the
extension carries its leading dot, or is empty when the name has no suffix. -/
structure FileName where
  stem : String
  ext : String
deriving DecidableEq

/-- Full file name, stem followed by extension. -/
def FileName.name (f : FileName) : String := f.stem ++ f.ext

/-- A file path: the directory component list plus the file name. -/
structure FPath where
  dirs : List String
  fname : FileName
deriving DecidableEq

/-- Name of the final path component. -/
def FPath.name (p : FPath) : String := p.fname.name

/-- Embedding of the helper ext_of: the lowercased extension without its
leading dots. -/
def ext_of (p : FPath) : String := stripDots (lowerStr p.fname.ext)

/-- Destination-side filesystem state: file contents keyed by path, plus
the list of directories known to exist. -/
structure FS where
  files : List (FPath × String)
  dirs : List (List String)
deriving DecidableEq

/-- Lookup of the content stored under a path in an entry list. -/
def lookupFile : List (FPath × String) → FPath → Option String
  | [], _ => none
  | e :: l, p => if e.1 = p then some e.2 else lookupFile l p

/-- Removal of every entry stored under a path from an entry list. -/
def removeFile : List (FPath × String) → FPath → List (FPath × String)
  | [], _ => []
  | e :: l, p => if e.1 = p then removeFile l p else e :: removeFile l p

/-- Content stored at a path, if any. -/
def FS.get (fs : FS) (p : FPath) : Option String := lookupFile fs.files p

/-- Test for existence of a file, the embedding of Path.exists for files. -/
def FS.existsFile (fs : FS) (p : FPath) : Bool := (fs.get p).isSome

/-- Remove every entry stored at a path. -/
def FS.eraseFile (fs : FS) (p : FPath) : FS :=
  { fs with files := removeFile fs.files p }

/-- Store content at a path, replacing any previous content. -/
def FS.setFile (fs : FS) (p : FPath) (s : String) : FS :=
  { fs with files := (p, s) :: (fs.eraseFile p).files }

/-- All prefixes of a directory path, from the root down to the path itself. -/
def ancestorDirs (d : List String) : List (List String) :=
  (List.range (d.length + 1)).map (fun k => d.take k)

/-- Embedding of Path.mkdir with parents=True and exist_ok=True. -/
def FS.mkdirParents (fs : FS) (d : List String) : FS :=
  { fs with dirs := fs.dirs ++ ancestorDirs d }

/-- A file entry of the source tree: its name and its size in bytes as
reported by os.stat. -/
structure FileEntry where
  fname : FileName
  size : Nat
deriving DecidableEq

mutual
/-- A directory of the source tree: named subdirectories and plain files,
in the order os.walk lists them. -/
inductive DirTree : Type where
  | node : DirList → List FileEntry → DirTree
/-- Named subdirectories of a directory. -/
inductive DirList : Type where
  | nil : DirList
  | cons : String → DirTree → DirList → DirList
end

/-- Test whether an entry name starts with the hidden marker, the embedding
of name.startswith applied to a single dot. -/
def hiddenName (s : String) : Bool := s.data.head? == some '.'

mutual
/-- Embedding of iter_files restricted to one directory: yield the files of
the current directory, then walk the kept subdirectories in order.  The
first argument is the component list of the current directory. -/
def iter_files_aux (pre : List String) (skip : Bool) : DirTree → List FPath
  | .node subdirs files =>
    (files.filterMap
      (fun f => if skip && hiddenName f.fname.name then none else some ⟨pre, f.fname⟩))
    ++ iter_files_auxL pre skip subdirs
/-- Walk of a subdirectory list; when skip is set, subdirectories whose
name starts with a dot are pruned from descent. -/
def iter_files_auxL (pre : List String) (skip : Bool) : DirList → List FPath
  | .nil => []
  | .cons nm t rest =>
    (if skip && hiddenName nm then [] else iter_files_aux (pre ++ [nm]) skip t)
    ++ iter_files_auxL pre skip rest
end

/-- Embedding of iter_files: all candidate file paths below the root, in
walk order. -/
def iter_files (rootDirs : List String) (t : DirTree) (skip : Bool) : List FPath :=
  iter_files_aux rootDirs skip t

mutual
/-- Embedding of the preflight walk over one directory: the triple of the
number of visited directories, the number of counted files, and the total
byte size of the counted files. -/
def preflightAux (skip : Bool) : DirTree → Nat × Nat × Nat
  | .node subdirs files =>
    let kept := files.filter (fun f => !(skip && hiddenName f.fname.name))
    let sub := preflightAuxL skip subdirs
    (1 + sub.1, kept.length + sub.2.1, (kept.map FileEntry.size).sum + sub.2.2)
/-- Preflight totals over a subdirectory list. -/
def preflightAuxL (skip : Bool) : DirList → Nat × Nat × Nat
  | .nil => (0, 0, 0)
  | .cons nm t rest =>
    let r := preflightAuxL skip rest
    if skip && hiddenName nm then r
    else
      let s := preflightAux skip t
      (s.1 + r.1, s.2.1 + r.2.1, s.2.2 + r.2.2)
end

mutual
/-- Specification-side pruning of a tree: drop every hidden file and every
hidden subtree.  Used to state the hidden-entry exclusion property. -/
def pruneTree : DirTree → DirTree
  | .node subdirs files =>
    .node (pruneList subdirs) (files.filter (fun f => !hiddenName f.fname.name))
/-- Pruning of a subdirectory list. -/
def pruneList : DirList → DirList
  | .nil => .nil
  | .cons nm t rest =>
    if hiddenName nm then pruneList rest else .cons nm (pruneTree t) (pruneList rest)
end

/-- Immutable preflight snapshot of the planned work, the embedding of
PreflightStats. -/
structure PreflightStats where
  root : List String
  dirs : Nat
  files : Nat
  bytes : Nat
deriving DecidableEq

/-- Embedding of preflight over the source tree. -/
def preflight (rootDirs : List String) (t : DirTree) (skip : Bool) : PreflightStats :=
  let r := preflightAux skip t
  { root := rootDirs, dirs := r.1, files := r.2.1, bytes := r.2.2 }

/-- Threshold configuration with the source defaults, the embedding of
BulkConvertThresholds. -/
structure BulkConvertThresholds where
  max_dirs : Nat := 16
  max_files : Nat := 128
  max_bytes : Nat := 300 * 1024 * 1024
deriving DecidableEq

/-- Default-constructed thresholds. -/
def defaultThresholds : BulkConvertThresholds := {}

/-- Embedding of the PreflightExceeded exception value: the stats, the
thresholds, and the message built by its constructor. -/
structure PreflightExceeded where
  stats : PreflightStats
  thresholds : BulkConvertThresholds
  msg : String
deriving DecidableEq

/-- Construction of a PreflightExceeded error, building the message the
constructor formats from the stats and thresholds. -/
def mkPreflightExceeded (stats : PreflightStats) (th : BulkConvertThresholds) :
    PreflightExceeded :=
  { stats := stats, thresholds := th,
    msg := "Preflight limits exceeded: dirs=" ++ natStr stats.dirs ++ "/" ++
      natStr th.max_dirs ++ ", files=" ++ natStr stats.files ++ "/" ++
      natStr th.max_files ++ ", bytes=" ++ natStr stats.bytes ++ "/" ++
      natStr th.max_bytes }

/-- Embedding of derive_output_path: re-root the source path under the
destination root and replace the extension with the markdown extension.
The source path is assumed to lie below the root, which bulk_convert
guarantees for every path it derives. -/
def derive_output_path (src : FPath) (rootDirs destDirs : List String) : FPath :=
  { dirs := destDirs ++ src.dirs.drop rootDirs.length,
    fname := { stem := src.fname.stem, ext := ".md" } }

/-- Embedding of the regex strip in unique_path: if the stem ends with a
space, an opening parenthesis, one or more digits and a closing
parenthesis, drop that suffix. -/
def stripNumSuffix (s : String) : String :=
  match s.data.reverse with
  | ')' :: rest =>
    let ds := rest.takeWhile (fun c => c.isDigit)
    match rest.drop ds.length with
    | '(' :: ' ' :: rest2 => if ds.isEmpty then s else ⟨rest2.reverse⟩
    | _ => s
  | _ => s

/-- Candidate path tried by unique_path at index i: the stripped stem with
the numeric suffix appended, in the same directory with the same extension. -/
def renameCand (p : FPath) (i : Nat) : FPath :=
  { dirs := p.dirs,
    fname := { stem := stripNumSuffix p.fname.stem ++ " (" ++ natStr i ++ ")",
               ext := p.fname.ext } }

/-- Search loop of unique_path, with explicit fuel standing in for the
unbounded while loop of the source; the fuel chosen by unique_path always
suffices, as proved below. -/
def uniqueAux (fs : FS) (p : FPath) : Nat → Nat → Option FPath
  | 0, _ => none
  | fuel + 1, i =>
    let cand := renameCand p i
    if fs.existsFile cand then uniqueAux fs p fuel (i + 1) else some cand

/-- Embedding of unique_path: return the path unchanged when it does not
exist, otherwise the first non-colliding numbered candidate starting from
one.  The fallback branch is unreachable because one of the first
length-plus-one candidates is always free. -/
def unique_path (fs : FS) (p : FPath) : FPath :=
  if fs.existsFile p then
    match uniqueAux fs p (fs.files.length + 1) 1 with
    | some q => q
    | none => p
  else p

/-- Temporary sibling used by write_atomic, the embedding of
dest_path.with_suffix of the suffix extended with the tmp marker. -/
def tmpPath (p : FPath) : FPath :=
  { dirs := p.dirs, fname := { stem := p.fname.stem, ext := p.fname.ext ++ ".tmp" } }

/-- Net effect of write_atomic on the filesystem: the ancestors of the
destination exist, the temporary sibling is gone, and the destination
holds the new content. -/
def write_atomic (fs : FS) (dest : FPath) (data : String) : FS :=
  (((fs.mkdirParents dest.dirs).eraseFile (tmpPath dest)).setFile dest data)

/-- All prefixes of the content of a string, used to model partially
written temporary files. -/
def strPre (data : String) : List String :=
  (List.range (data.data.length + 1)).map (fun k => ⟨data.data.take k⟩)

/-- Micro-step trace of write_atomic: the initial state, the state after
the directories are created, one state for every partially written prefix
of the temporary file, and the state after the atomic replace. -/
def write_atomic_states (fs : FS) (dest : FPath) (data : String) : List FS :=
  let fs1 := fs.mkdirParents dest.dirs
  [fs, fs1]
  ++ (strPre data).map (fun pre => fs1.setFile (tmpPath dest) pre)
  ++ [write_atomic fs dest data]

/-- Per-file outcome status, the embedding of the Status literal type. -/
inductive Status : Type where
  | converted : Status
  | skipped : Status
  | failed : Status
deriving DecidableEq

/-- Embedding of BulkFileResult. -/
structure BulkFileResult where
  src : FPath
  dest : Option FPath
  status : Status
  reason : Option String := none
  words : Option Nat := none
  headings : Option Nat := none
deriving DecidableEq

/-- Embedding of BulkResult. -/
structure BulkResult where
  root : List String
  dest : List String
  files : List BulkFileResult
  converted : Nat
  skipped : Nat
  failed : Nat
  total_words : Nat
  total_headings : Nat
deriving DecidableEq

/-- Rendering of a directory path, standing in for Python str on a Path. -/
def dirStr (d : List String) : String := String.intercalate "/" d

/-- Rendering of a file path. -/
def pathStr (p : FPath) : String := String.intercalate "/" (p.dirs ++ [p.name])

/-- Embedding of the reason fallback in the report: a missing or empty
reason renders as unknown error. -/
def orUnknown (r : Option String) : String :=
  match r with
  | some s => if s = "" then "unknown error" else s
  | none => "unknown error"

/-- Stable insertion of an element into a list sorted by a string key. -/
def insertByStr {α : Type} (key : α → String) (x : α) : List α → List α
  | [] => [x]
  | y :: ys => if key x < key y then x :: y :: ys else y :: insertByStr key x ys

/-- Stable sort by a string key, the embedding of Python sorted with a str
key function. -/
def sortByStr {α : Type} (key : α → String) (l : List α) : List α :=
  l.foldr (insertByStr key) []

/-- Embedding of make_report: the textual report built from a completed
BulkResult, with the per-directory breakdown sorted by path string. -/
def make_report (result : BulkResult) : String :=
  let convs := result.files.filter
    (fun fr => decide (fr.status = Status.converted) && fr.dest.isSome)
  let keys := convs.foldl
    (fun acc fr => if fr.src.dirs ∈ acc then acc else acc ++ [fr.src.dirs])
    ([] : List (List String))
  let sortedKeys := sortByStr dirStr keys
  let headerLines : List String :=
    ["# Bulk Conversion Report\n",
     "Root: " ++ dirStr result.root ++ "\n",
     "Destination: " ++ dirStr result.dest ++ "\n",
     "",
     "## Summary\n",
     "- Converted: " ++ natStr result.converted,
     "- Skipped: " ++ natStr result.skipped,
     "- Failed: " ++ natStr result.failed,
     "- Total words: " ++ natStr result.total_words,
     "- Total headings: " ++ natStr result.total_headings ++ "\n",
     "",
     "## By Directory\n"]
  let dirBlock := fun (d : List String) =>
    let here := convs.filter (fun fr => decide (fr.src.dirs = d))
    let extKeys := here.foldl
      (fun acc fr => if ext_of fr.src ∈ acc then acc else acc ++ [ext_of fr.src])
      ([] : List String)
    let sortedExts := sortByStr id extKeys
    ["### " ++ dirStr d]
    ++ (if extKeys ≠ [] then
          ["- Files converted by type:"]
          ++ sortedExts.map (fun e =>
               "  - ." ++ e ++ ": " ++
               natStr (here.filter (fun fr => decide (ext_of fr.src = e))).length)
        else [])
    ++ ["- Documents: " ++ natStr here.length,
        "- Words: " ++ natStr (here.map (fun fr => fr.words.getD 0)).sum,
        "- Headings: " ++ natStr (here.map (fun fr => fr.headings.getD 0)).sum ++ "\n"]
  let errors := (result.files.filter (fun fr => decide (fr.status = Status.failed))).map
    (fun fr => "- " ++ pathStr fr.src ++ ": " ++ orUnknown fr.reason)
  let lines := headerLines ++ (sortedKeys.map dirBlock).flatten
    ++ (if errors ≠ [] then "## Errors\n" :: errors else [])
  String.intercalate "\n" lines ++ "\n"

/-- Conflict policy, the embedding of the ConflictPolicy literal type. -/
inductive ConflictPolicy : Type where
  | rename : ConflictPolicy
  | skip : ConflictPolicy
deriving DecidableEq

/-- Options of bulk_convert that the model tracks; workers and
enable_plugins are ignored by the source loop and omitted. -/
structure BulkOptions where
  include_ext : List String := []
  exclude_ext : List String := []
  on_conflict : ConflictPolicy := .rename
  continue_on_error : Bool := true
  thresholds : Option BulkConvertThresholds := none
  confirm : Option (PreflightStats → BulkConvertThresholds → Bool) := none
  skip_hidden : Bool := true

/-- Observable state of a run: the destination filesystem, the list of
converter invocations in order, and the list of atomic write events, each
paired with whether the written path existed before. -/
structure RunState where
  fs : FS
  calls : List FPath
  writes : List (FPath × Bool)
deriving DecidableEq

/-- Perform one atomic write, recording the write event. -/
def RunState.write (rs : RunState) (dest : FPath) (data : String) : RunState :=
  { fs := write_atomic rs.fs dest data, calls := rs.calls,
    writes := rs.writes ++ [(dest, rs.fs.existsFile dest)] }

/-- Accumulated state of the conversion loop of bulk_convert. -/
structure LoopState where
  results : List BulkFileResult := []
  converted : Nat := 0
  skipped : Nat := 0
  failed : Nat := 0
  total_words : Nat := 0
  total_headings : Nat := 0
  rs : RunState
deriving DecidableEq

/-- Destination of the process report inside the destination root. -/
def reportPath (destDirs : List String) : FPath :=
  { dirs := destDirs, fname := { stem := "process_report", ext := ".md" } }

/-- Embedding of one iteration of the conversion loop of bulk_convert.
Returns the updated state and whether the loop breaks, which happens
exactly when this file failed and continue_on_error is false.  The filter
checks come first; then the converter runs, then word and heading counts
are taken, and only then the conflict policy is applied, matching the
order of the source. -/
def process_one (conv : FPath → Except String String) (rootDirs destDirs : List String)
    (incE excE : List String) (policy : ConflictPolicy) (contOnErr : Bool)
    (st : LoopState) (fp : FPath) : LoopState × Bool :=
  if incE ≠ [] ∧ ext_of fp ∉ incE then
    ({ st with
        results := st.results ++
          [{ src := fp, dest := none, status := .skipped, reason := some "filtered" }],
        skipped := st.skipped + 1 }, false)
  else if excE ≠ [] ∧ ext_of fp ∈ excE then
    ({ st with
        results := st.results ++
          [{ src := fp, dest := none, status := .skipped, reason := some "filtered" }],
        skipped := st.skipped + 1 }, false)
  else
    let out := derive_output_path fp rootDirs destDirs
    let rs1 := { st.rs with calls := st.rs.calls ++ [fp] }
    match conv fp with
    | .error e =>
      ({ st with
          results := st.results ++
            [{ src := fp, dest := none, status := .failed, reason := some e }],
          failed := st.failed + 1, rs := rs1 }, !contOnErr)
    | .ok md_text =>
      let wh := count_words_and_headings md_text
      match policy with
      | .rename =>
        let final := unique_path rs1.fs out
        ({ st with
            results := st.results ++
              [{ src := fp, dest := some final, status := .converted,
                 words := some wh.1, headings := some wh.2 }],
            converted := st.converted + 1,
            total_words := st.total_words + wh.1,
            total_headings := st.total_headings + wh.2,
            rs := rs1.write final md_text }, false)
      | .skip =>
        if rs1.fs.existsFile out then
          ({ st with
              results := st.results ++
                [{ src := fp, dest := none, status := .skipped, reason := some "exists" }],
              skipped := st.skipped + 1, rs := rs1 }, false)
        else
          ({ st with
              results := st.results ++
                [{ src := fp, dest := some out, status := .converted,
                   words := some wh.1, headings := some wh.2 }],
              converted := st.converted + 1,
              total_words := st.total_words + wh.1,
              total_headings := st.total_headings + wh.2,
              rs := rs1.write out md_text }, false)

/-- The conversion loop: run the step on each candidate in order, stopping
early when the step signals a break. -/
def run_loop (step : LoopState → FPath → LoopState × Bool) :
    LoopState → List FPath → LoopState
  | st, [] => st
  | st, f :: rest =>
    match step st f with
    | (st', true) => st'
    | (st', false) => run_loop step st' rest

/-- Loop phase of bulk_convert: normalize the extension filters and walk
every candidate through the conversion loop, starting from the state whose
filesystem has the destination root created. -/
def bulk_loop_state (rootDirs : List String) (tree : DirTree) (destDirs : List String)
    (conv : FPath → Except String String) (opts : BulkOptions) (fs0 : FS) : LoopState :=
  let rs0 : RunState := { fs := fs0.mkdirParents destDirs, calls := [], writes := [] }
  let incE := opts.include_ext.map (fun e => stripDots (lowerStr e))
  let excE := opts.exclude_ext.map (fun e => stripDots (lowerStr e))
  let cands := iter_files rootDirs tree opts.skip_hidden
  run_loop
    (process_one conv rootDirs destDirs incE excE opts.on_conflict opts.continue_on_error)
    { rs := rs0 } cands

/-- Conversion phase of bulk_convert, entered once the preflight gate has
allowed the run: run the conversion loop, assemble the BulkResult and
write the process report into the destination root. -/
def bulk_run (rootDirs : List String) (tree : DirTree) (destDirs : List String)
    (conv : FPath → Except String String) (opts : BulkOptions) (fs0 : FS) :
    BulkResult × RunState :=
  let st := bulk_loop_state rootDirs tree destDirs conv opts fs0
  let bulk : BulkResult :=
    { root := rootDirs, dest := destDirs, files := st.results,
      converted := st.converted, skipped := st.skipped, failed := st.failed,
      total_words := st.total_words, total_headings := st.total_headings }
  let rs2 := st.rs.write (reportPath destDirs) (make_report bulk)
  (bulk, rs2)

/-- Embedding of bulk_convert.  Root resolution and the not-a-directory
check are outside the model: the source tree is given directly.  The
result pairs the returned BulkResult, or the PreflightExceeded error, with
the final observable run state; on a raise the state records the created
destination root, no converter call and no write. -/
def bulk_convert (rootDirs : List String) (tree : DirTree) (destDirs : List String)
    (conv : FPath → Except String String) (opts : BulkOptions) (fs0 : FS) :
    Except PreflightExceeded BulkResult × RunState :=
  let rs0 : RunState := { fs := fs0.mkdirParents destDirs, calls := [], writes := [] }
  let th := opts.thresholds.getD defaultThresholds
  let stats := preflight rootDirs tree opts.skip_hidden
  let raisePre : Except PreflightExceeded BulkResult × RunState :=
    (.error (mkPreflightExceeded stats th), rs0)
  let proceed : Except PreflightExceeded BulkResult × RunState :=
    let br := bulk_run rootDirs tree destDirs conv opts fs0
    (.ok br.1, br.2)
  if stats.dirs > th.max_dirs ∨ stats.files > th.max_files ∨ stats.bytes > th.max_bytes then
    match opts.confirm with
    | some f => if f stats th then proceed else raisePre
    | none => raisePre
  else proceed

/-- Converter succeeding with a fixed markdown text, used by the concrete
scenarios below. -/
def convOk : FPath → Except String String := fun _ => .ok "# h\n\nhello world"

/-- Converter failing on every input. -/
def convFail : FPath → Except String String := fun _ => .error "boom"

/-- Empty destination filesystem. -/
def emptyFS : FS := ⟨[], []⟩

/-- Source tree with two files whose stems differ. -/
def treeTwoDistinct : DirTree := .node .nil [⟨⟨"a", ".pdf"⟩, 1⟩, ⟨⟨"b", ".docx"⟩, 1⟩]

/-- Source tree with two files sharing the stem a, so both derive the same
destination path. -/
def treeCollide : DirTree := .node .nil [⟨⟨"a", ".txt"⟩, 1⟩, ⟨⟨"a", ".pdf"⟩, 1⟩]

/-- Source tree with a single file a.txt. -/
def treeOne : DirTree := .node .nil [⟨⟨"a", ".txt"⟩, 1⟩]

/-- Source tree with three small text files. -/
def treeThree : DirTree :=
  .node .nil [⟨⟨"f0", ".txt"⟩, 1⟩, ⟨⟨"f1", ".txt"⟩, 1⟩, ⟨⟨"f2", ".txt"⟩, 1⟩]

/-- Destination filesystem already holding out/a.md. -/
def fsWithAMd : FS := ⟨[(⟨["out"], ⟨"a", ".md"⟩⟩, "old")], [["out"]]⟩

/-- Destination filesystem holding only out/file.md. -/
def fsFileOnly : FS := ⟨[(⟨["out"], ⟨"file", ".md"⟩⟩, "x")], []⟩

/-- Destination filesystem holding out/file.md and its first renamed
sibling. -/
def fsFileTwo : FS :=
  ⟨[(⟨["out"], ⟨"file", ".md"⟩⟩, "x"), (⟨["out"], ⟨"file (1)", ".md"⟩⟩, "y")], []⟩

/-- The candidate destination out/file.md used in the rename scenarios. -/
def exampleFile : FPath := ⟨["out"], ⟨"file", ".md"⟩⟩

/-- Options selecting the skip conflict policy. -/
def skipOpts : BulkOptions := { on_conflict := .skip }

/-- Deliberately small thresholds. -/
def smallTh : BulkConvertThresholds := ⟨1, 2, 10⟩

/-- Source tree containing a hidden directory and a hidden file next to
visible ones. -/
def treeHidden : DirTree :=
  .node
    (.cons ".hidden" (.node .nil [⟨⟨"x", ".txt"⟩, 6⟩])
      (.cons "b" (.node .nil [⟨⟨"g", ".docx"⟩, 4⟩]) .nil))
    [⟨⟨".secret", ""⟩, 2⟩, ⟨⟨"f", ".txt"⟩, 5⟩]

/-- Specification-side sum of the word counts over the outcomes with
converted status. -/
def sumWords (l : List BulkFileResult) : Nat :=
  ((l.filter (fun r => decide (r.status = Status.converted))).map
    (fun r => r.words.getD 0)).sum

/-- Specification-side sum of the heading counts over the outcomes with
converted status. -/
def sumHeadings (l : List BulkFileResult) : Nat :=
  ((l.filter (fun r => decide (r.status = Status.converted))).map
    (fun r => r.headings.getD 0)).sum

/-! Helper lemmas about the decimal rendering. -/

theorem natStrAux_zero (f : Nat) : natStrAux f 0 = [] := by
  cases f <;> simp [natStrAux]

theorem natStrAux_fuel (n : Nat) : ∀ f1 f2, n ≤ f1 → n ≤ f2 →
    natStrAux f1 n = natStrAux f2 n := by
  induction n using Nat.strong_induction_on with
  | _ n ih =>
    intro f1 f2 h1 h2
    cases n with
    | zero => rw [natStrAux_zero, natStrAux_zero]
    | succ m =>
      cases f1 with
      | zero => omega
      | succ g1 =>
        cases f2 with
        | zero => omega
        | succ g2 =>
          have hd : (m + 1) / 10 < m + 1 := Nat.div_lt_self (Nat.succ_pos m) (by omega)
          simp only [natStrAux, if_neg (Nat.succ_ne_zero m)]
          rw [ih ((m + 1) / 10) hd g1 g2 (by omega) (by omega)]

theorem natStrAux_ne_nil (n f : Nat) (h1 : 1 ≤ n) (h2 : n ≤ f) :
    natStrAux f n ≠ [] := by
  cases f with
  | zero => omega
  | succ g =>
    simp only [natStrAux, if_neg (by omega : ¬n = 0)]
    simp

theorem natStrAux_inj (m : Nat) : ∀ n f1 f2, 1 ≤ m → 1 ≤ n → m ≤ f1 → n ≤ f2 →
    natStrAux f1 m = natStrAux f2 n → m = n := by
  induction m using Nat.strong_induction_on with
  | _ m ih =>
    intro n f1 f2 hm hn hf1 hf2 heq
    cases f1 with
    | zero => omega
    | succ g1 =>
      cases f2 with
      | zero => omega
      | succ g2 =>
        simp only [natStrAux, if_neg (by omega : ¬m = 0), if_neg (by omega : ¬n = 0)] at heq
        have hlast := List.append_inj' heq rfl
        have hdigit : Nat.digitChar (m % 10) = Nat.digitChar (n % 10) := by
          simpa using hlast.2
        have hmod : m % 10 = n % 10 := by
          have hdd : ∀ a, a < 10 → ∀ b, b < 10 →
              Nat.digitChar a = Nat.digitChar b → a = b := by decide
          exact hdd (m % 10) (Nat.mod_lt m (by omega)) (n % 10) (Nat.mod_lt n (by omega)) hdigit
        have hpre : natStrAux g1 (m / 10) = natStrAux g2 (n / 10) := hlast.1
        by_cases hm0 : m / 10 = 0
        · have hn0 : n / 10 = 0 := by
            by_contra hn0
            have : natStrAux g2 (n / 10) ≠ [] :=
              natStrAux_ne_nil (n / 10) g2 (by omega)
                (by have := Nat.div_lt_self (by omega : 0 < n) (by omega : 1 < 10); omega)
            rw [← hpre, hm0, natStrAux_zero] at this
            exact this rfl
          omega
        · have hn0 : n / 10 ≠ 0 := by
            by_contra hn0
            have : natStrAux g1 (m / 10) ≠ [] :=
              natStrAux_ne_nil (m / 10) g1 (by omega)
                (by have := Nat.div_lt_self (by omega : 0 < m) (by omega : 1 < 10); omega)
            rw [hpre, hn0, natStrAux_zero] at this
            exact this rfl
          have hdiv : m / 10 = n / 10 := by
            have hlt : m / 10 < m := Nat.div_lt_self (by omega) (by omega)
            exact ih (m / 10) hlt (n / 10) g1 g2 (by omega) (by omega)
              (by have := Nat.div_lt_self (by omega : 0 < m) (by omega : 1 < 10); omega)
              (by have := Nat.div_lt_self (by omega : 0 < n) (by omega : 1 < 10); omega)
              hpre
          omega

theorem natStr_inj_pos {m n : Nat} (hm : 1 ≤ m) (hn : 1 ≤ n)
    (h : natStr m = natStr n) : m = n := by
  unfold natStr at h
  rw [if_neg (by omega : ¬m = 0), if_neg (by omega : ¬n = 0)] at h
  have hl : natStrAux m m = natStrAux n n := congrArg String.data h
  exact natStrAux_inj m n m n hm hn (le_refl m) (le_refl n) hl

theorem renameCand_inj (p : FPath) {i j : Nat} (hi : 1 ≤ i) (hj : 1 ≤ j)
    (h : renameCand p i = renameCand p j) : i = j := by
  have hstem : stripNumSuffix p.fname.stem ++ " (" ++ natStr i ++ ")" =
      stripNumSuffix p.fname.stem ++ " (" ++ natStr j ++ ")" := by
    have := congrArg (fun q => q.fname.stem) h
    simpa [renameCand] using this
  have hdata := congrArg String.data hstem
  simp only [String.data_append, List.append_assoc] at hdata
  have h1 := List.append_cancel_left hdata
  have h2 := List.append_cancel_left h1
  have h3 := (List.append_inj' h2 rfl).1
  exact natStr_inj_pos hi hj (by cases hni : natStr i; cases hnj : natStr j; simp_all)

/-! Helper lemmas about the filesystem model. -/

theorem FS.get_mkdirParents (fs : FS) (d : List String) (q : FPath) :
    (fs.mkdirParents d).get q = fs.get q := rfl

theorem lookupFile_removeFile_ne (l : List (FPath × String)) (p q : FPath) (h : q ≠ p) :
    lookupFile (removeFile l p) q = lookupFile l q := by
  induction l with
  | nil => rfl
  | cons a l ih =>
    by_cases hap : a.1 = p
    · have haq : ¬(a.1 = q) := fun hq => h (hq ▸ hap)
      rw [removeFile, if_pos hap, lookupFile, if_neg haq, ih]
    · rw [removeFile, if_neg hap, lookupFile, lookupFile]
      by_cases haq : a.1 = q
      · rw [if_pos haq, if_pos haq]
      · rw [if_neg haq, if_neg haq, ih]

theorem lookupFile_removeFile_self (l : List (FPath × String)) (p : FPath) :
    lookupFile (removeFile l p) p = none := by
  induction l with
  | nil => rfl
  | cons a l ih =>
    by_cases hap : a.1 = p
    · rw [removeFile, if_pos hap, ih]
    · rw [removeFile, if_neg hap, lookupFile, if_neg hap, ih]

theorem FS.get_setFile_self (fs : FS) (p : FPath) (s : String) :
    (fs.setFile p s).get p = some s := by
  simp [FS.setFile, FS.get, lookupFile]

theorem FS.get_setFile_ne (fs : FS) (p q : FPath) (s : String) (h : q ≠ p) :
    (fs.setFile p s).get q = fs.get q := by
  simp only [FS.setFile, FS.get, FS.eraseFile, lookupFile]
  rw [if_neg (fun hq : p = q => h hq.symm), lookupFile_removeFile_ne fs.files p q h]

theorem FS.get_eraseFile_ne (fs : FS) (p q : FPath) (h : q ≠ p) :
    (fs.eraseFile p).get q = fs.get q :=
  lookupFile_removeFile_ne fs.files p q h

theorem FS.get_eraseFile_self (fs : FS) (p : FPath) :
    (fs.eraseFile p).get p = none :=
  lookupFile_removeFile_self fs.files p

theorem FS.existsFile_iff_mem (fs : FS) (p : FPath) :
    fs.existsFile p = true ↔ p ∈ fs.files.map Prod.fst := by
  unfold FS.existsFile FS.get
  induction fs.files with
  | nil => simp [lookupFile]
  | cons a l ih =>
    by_cases hap : a.1 = p
    · simp [lookupFile, hap]
    · simp only [lookupFile, if_neg hap, List.map_cons, List.mem_cons, ih]
      constructor
      · exact fun h => Or.inr h
      · rintro (h | h)
        · exact absurd h.symm hap
        · exact h

/-! Helper lemmas about the temporary sibling and the atomic writer. -/

theorem append_tmp_ne (s : String) : s ++ ".tmp" ≠ s := by
  intro h
  have hl := congrArg String.length h
  rw [String.length_append] at hl
  have h4 : (".tmp" : String).length = 4 := rfl
  omega

theorem tmpPath_ne (p : FPath) : tmpPath p ≠ p := by
  intro h
  have he := congrArg (fun q => q.fname.ext) h
  simp only [tmpPath] at he
  exact append_tmp_ne _ he

theorem md_ne_tmpPath (q dest : FPath) (hq : q.fname.ext = ".md") : q ≠ tmpPath dest := by
  intro h
  have he := congrArg (fun r => r.fname.ext) h
  simp only [tmpPath] at he
  rw [hq] at he
  have hl := congrArg String.length he
  rw [String.length_append] at hl
  have h3 : (".md" : String).length = 3 := rfl
  have h4 : (".tmp" : String).length = 4 := rfl
  omega

theorem write_atomic_get_self (fs : FS) (dest : FPath) (data : String) :
    (write_atomic fs dest data).get dest = some data := by
  unfold write_atomic
  exact FS.get_setFile_self _ _ _

theorem write_atomic_get_ne (fs : FS) (dest : FPath) (data : String) (q : FPath)
    (h1 : q ≠ dest) (h2 : q ≠ tmpPath dest) :
    (write_atomic fs dest data).get q = fs.get q := by
  unfold write_atomic
  rw [FS.get_setFile_ne _ _ _ _ h1, FS.get_eraseFile_ne _ _ _ h2, FS.get_mkdirParents]

theorem write_atomic_existsFile_true (fs : FS) (dest : FPath) (data : String) (q : FPath)
    (h2 : q ≠ tmpPath dest) (h : fs.existsFile q = true) :
    (write_atomic fs dest data).existsFile q = true := by
  by_cases h1 : q = dest
  · subst h1
    unfold FS.existsFile
    rw [write_atomic_get_self]
    rfl
  · unfold FS.existsFile
    rw [write_atomic_get_ne fs dest data q h1 h2]
    exact h

theorem write_atomic_existsFile_false (fs : FS) (dest : FPath) (data : String) (q : FPath)
    (h1 : q ≠ dest) (h2 : q ≠ tmpPath dest) (h : fs.existsFile q = false) :
    (write_atomic fs dest data).existsFile q = false := by
  unfold FS.existsFile
  rw [write_atomic_get_ne fs dest data q h1 h2]
  exact h

theorem write_atomic_dirs (fs : FS) (dest : FPath) (data : String) :
    (write_atomic fs dest data).dirs = fs.dirs ++ ancestorDirs dest.dirs := rfl

theorem RunState.write_fs (rs : RunState) (dest : FPath) (data : String) :
    (rs.write dest data).fs = write_atomic rs.fs dest data := rfl

theorem RunState.write_calls (rs : RunState) (dest : FPath) (data : String) :
    (rs.write dest data).calls = rs.calls := rfl

theorem RunState.write_writes (rs : RunState) (dest : FPath) (data : String) :
    (rs.write dest data).writes = rs.writes ++ [(dest, rs.fs.existsFile dest)] := rfl

/-! Helper lemmas for unique_path. -/

theorem exists_free_cand (fs : FS) (p : FPath) :
    ∃ k, k < fs.files.length + 1 ∧ fs.existsFile (renameCand p (k + 1)) = false := by
  by_contra hc
  push_neg at hc
  have hall : ∀ k, k < fs.files.length + 1 → renameCand p (k + 1) ∈ fs.files.map Prod.fst := by
    intro k hk
    have hne := hc k hk
    have hb : fs.existsFile (renameCand p (k + 1)) = true := by
      cases hx : fs.existsFile (renameCand p (k + 1)) with
      | true => rfl
      | false => exact absurd hx hne
    exact (FS.existsFile_iff_mem _ _).mp hb
  have hinj : Set.InjOn (fun k => renameCand p (k + 1))
      ↑(Finset.range (fs.files.length + 1)) := by
    intro a _ b _ hab
    have := renameCand_inj p (i := a + 1) (j := b + 1) (by omega) (by omega) hab
    omega
  have hsub : (Finset.range (fs.files.length + 1)).image (fun k => renameCand p (k + 1)) ⊆
      (fs.files.map Prod.fst).toFinset := by
    intro q hq
    simp only [Finset.mem_image, Finset.mem_range] at hq
    obtain ⟨k, hk, rfl⟩ := hq
    exact List.mem_toFinset.mpr (hall k hk)
  have hcard1 : ((Finset.range (fs.files.length + 1)).image
      (fun k => renameCand p (k + 1))).card = fs.files.length + 1 := by
    rw [Finset.card_image_of_injOn hinj, Finset.card_range]
  have hcard2 := Finset.card_le_card hsub
  have hcard3 : ((fs.files.map Prod.fst).toFinset).card ≤ fs.files.length := by
    calc ((fs.files.map Prod.fst).toFinset).card
        ≤ (fs.files.map Prod.fst).length := List.toFinset_card_le _
      _ = fs.files.length := List.length_map _ _
  omega

theorem uniqueAux_unfold (fs : FS) (p : FPath) (f i : Nat) :
    uniqueAux fs p (f + 1) i =
      if fs.existsFile (renameCand p i) then uniqueAux fs p f (i + 1)
      else some (renameCand p i) := rfl

theorem uniqueAux_spec (fs : FS) (p : FPath) :
    ∀ fuel i, (∃ k, k < fuel ∧ fs.existsFile (renameCand p (i + k)) = false) →
    ∃ k, k < fuel ∧ uniqueAux fs p fuel i = some (renameCand p (i + k)) ∧
      fs.existsFile (renameCand p (i + k)) = false ∧
      ∀ m, m < k → fs.existsFile (renameCand p (i + m)) = true := by
  intro fuel
  induction fuel with
  | zero =>
    rintro i ⟨k, hk, _⟩
    omega
  | succ f ih =>
    rintro i ⟨k, hk, hfree⟩
    by_cases hex : fs.existsFile (renameCand p i) = true
    · have hk1 : 1 ≤ k := by
        by_contra h0
        have hz : k = 0 := by omega
        subst hz
        rw [Nat.add_zero, hex] at hfree
        exact Bool.noConfusion hfree
      obtain ⟨k', hk', heq, hfree', hmin⟩ := ih (i + 1)
        ⟨k - 1, by omega, by rw [show i + 1 + (k - 1) = i + k by omega]; exact hfree⟩
      refine ⟨k' + 1, by omega, ?_, ?_, ?_⟩
      · rw [uniqueAux_unfold, if_pos hex, show i + (k' + 1) = i + 1 + k' by omega]
        exact heq
      · rw [show i + (k' + 1) = i + 1 + k' by omega]
        exact hfree'
      · intro m hm
        cases m with
        | zero => rw [Nat.add_zero]; exact hex
        | succ m' =>
          rw [show i + (m' + 1) = i + 1 + m' by omega]
          exact hmin m' (by omega)
    · have hfalse : fs.existsFile (renameCand p i) = false := by
        cases hx : fs.existsFile (renameCand p i) with
        | true => exact absurd hx hex
        | false => rfl
      refine ⟨0, by omega, ?_, by rw [Nat.add_zero]; exact hfalse,
        fun m hm => absurd hm (Nat.not_lt_zero m)⟩
      rw [uniqueAux_unfold, if_neg (by rw [hfalse]; exact Bool.false_ne_true), Nat.add_zero]

/-- C5: under the rename policy, a non-existing candidate is returned
unchanged; an existing candidate is replaced by the numbered variant with
the lowest positive index whose path does not exist, built from the stem
with any trailing numeric suffix stripped; concretely, an existing file.md
yields file (1).md, and with file (1).md also present the result is
file (2).md rather than a doubled suffix. -/
theorem unique_path_spec (fs : FS) (p : FPath) :
    (fs.existsFile p = false → unique_path fs p = p)
    ∧ (fs.existsFile p = true →
        ∃ i, 1 ≤ i ∧ unique_path fs p = renameCand p i ∧
          fs.existsFile (renameCand p i) = false ∧
          ∀ j, 1 ≤ j → j < i → fs.existsFile (renameCand p j) = true)
    ∧ unique_path fsFileOnly exampleFile = ⟨["out"], ⟨"file (1)", ".md"⟩⟩
    ∧ unique_path fsFileTwo exampleFile = ⟨["out"], ⟨"file (2)", ".md"⟩⟩ := by
  refine ⟨?_, ?_, by decide, by decide⟩
  · intro h
    simp [unique_path, h]
  · intro h
    obtain ⟨k0, hk0, hfree0⟩ := exists_free_cand fs p
    obtain ⟨k, hk, heq, hfree, hmin⟩ := uniqueAux_spec fs p (fs.files.length + 1) 1
      ⟨k0, hk0, by rw [Nat.add_comm]; exact hfree0⟩
    refine ⟨1 + k, by omega, ?_, hfree, ?_⟩
    · simp [unique_path, h, heq]
    · intro j h1j hjlt
      have hm := hmin (j - 1) (by omega)
      rwa [show 1 + (j - 1) = j by omega] at hm

/-- Witness for C5 at a concrete filesystem: applying the theorem at the
filesystem holding only file.md pins the renamed candidate to index one. -/
theorem unique_path_spec_witness :
    unique_path fsFileOnly exampleFile = renameCand exampleFile 1 := by
  obtain ⟨i, h1, h2, h3, h4⟩ :=
    (unique_path_spec fsFileOnly exampleFile).2.1 (by decide)
  have hi : i = 1 := by
    by_contra hne
    have h1i : 1 < i := lt_of_le_of_ne h1 (Ne.symm hne)
    have ht := h4 1 (le_refl 1) h1i
    exact absurd ht (by decide)
  subst hi
  exact h2

/-! Helper lemmas about the conversion loop. -/

theorem run_loop_nil (step : LoopState → FPath → LoopState × Bool) (st : LoopState) :
    run_loop step st [] = st := rfl

theorem run_loop_cons_break {step : LoopState → FPath → LoopState × Bool}
    {st st' : LoopState} {f : FPath} (rest : List FPath) (h : step st f = (st', true)) :
    run_loop step st (f :: rest) = st' := by
  simp only [run_loop, h]

theorem run_loop_cons_cont {step : LoopState → FPath → LoopState × Bool}
    {st st' : LoopState} {f : FPath} (rest : List FPath) (h : step st f = (st', false)) :
    run_loop step st (f :: rest) = run_loop step st' rest := by
  simp only [run_loop, h]

theorem run_loop_inv {Q : LoopState → Prop} (step : LoopState → FPath → LoopState × Bool)
    (hstep : ∀ st f, Q st → Q (step st f).1) :
    ∀ (l : List FPath) (st : LoopState), Q st → Q (run_loop step st l) := by
  intro l
  induction l with
  | nil => exact fun st h => h
  | cons f rest ih =>
    intro st h
    rcases hs : step st f with ⟨st', brk⟩
    have hq' : Q st' := by
      have := hstep st f h
      rw [hs] at this
      exact this
    cases brk
    · rw [run_loop_cons_cont rest hs]
      exact ih st' hq'
    · rw [run_loop_cons_break rest hs]
      exact hq'

theorem bulk_convert_cases (rootDirs : List String) (tree : DirTree)
    (destDirs : List String) (conv : FPath → Except String String)
    (opts : BulkOptions) (fs0 : FS) :
    bulk_convert rootDirs tree destDirs conv opts fs0 =
      (.ok (bulk_run rootDirs tree destDirs conv opts fs0).1,
       (bulk_run rootDirs tree destDirs conv opts fs0).2)
    ∨ bulk_convert rootDirs tree destDirs conv opts fs0 =
      (.error (mkPreflightExceeded (preflight rootDirs tree opts.skip_hidden)
          (opts.thresholds.getD defaultThresholds)),
       { fs := fs0.mkdirParents destDirs, calls := [], writes := [] }) := by
  unfold bulk_convert
  dsimp only
  repeat' (first | split | dsimp only)
  all_goals first
    | exact Or.inl rfl
    | exact Or.inr rfl

theorem bulk_ok_eq {rootDirs : List String} {tree : DirTree} {destDirs : List String}
    {conv : FPath → Except String String} {opts : BulkOptions} {fs0 : FS}
    {res : BulkResult}
    (h : (bulk_convert rootDirs tree destDirs conv opts fs0).1 = .ok res) :
    res = (bulk_run rootDirs tree destDirs conv opts fs0).1 ∧
    (bulk_convert rootDirs tree destDirs conv opts fs0).2 =
      (bulk_run rootDirs tree destDirs conv opts fs0).2 := by
  rcases bulk_convert_cases rootDirs tree destDirs conv opts fs0 with hcase | hcase
  · rw [hcase] at h ⊢
    exact ⟨(Except.ok.inj h).symm, rfl⟩
  · rw [hcase] at h
    exact absurd h (by simp)

theorem sumWords_append_one (l : List BulkFileResult) (r : BulkFileResult) :
    sumWords (l ++ [r]) = sumWords l +
      (if r.status = Status.converted then r.words.getD 0 else 0) := by
  by_cases h : r.status = Status.converted <;>
    simp [sumWords, List.filter_append, h]

theorem sumHeadings_append_one (l : List BulkFileResult) (r : BulkFileResult) :
    sumHeadings (l ++ [r]) = sumHeadings l +
      (if r.status = Status.converted then r.headings.getD 0 else 0) := by
  by_cases h : r.status = Status.converted <;>
    simp [sumHeadings, List.filter_append, h]

theorem process_one_counts (conv : FPath → Except String String)
    (rootDirs destDirs : List String) (incE excE : List String)
    (policy : ConflictPolicy) (contOnErr : Bool) (st : LoopState) (fp : FPath)
    (hQ : st.converted + st.skipped + st.failed = st.results.length ∧
      st.total_words = sumWords st.results ∧ st.total_headings = sumHeadings st.results) :
    let st' := (process_one conv rootDirs destDirs incE excE policy contOnErr st fp).1
    st'.converted + st'.skipped + st'.failed = st'.results.length ∧
    st'.total_words = sumWords st'.results ∧
    st'.total_headings = sumHeadings st'.results := by
  obtain ⟨h1, h2, h3⟩ := hQ
  unfold process_one
  dsimp only
  repeat' (first | split | dsimp only)
  all_goals simp [sumWords_append_one, sumHeadings_append_one, h1, h2, h3]
  all_goals omega

/-- C3: a completed bulk_convert returns a BulkResult whose converted,
skipped and failed counters sum to the number of recorded outcomes, whose
total word count is the sum of the word counts of the converted outcomes,
and whose total heading count is the sum of their heading counts. -/
theorem bulk_totals (rootDirs : List String) (tree : DirTree) (destDirs : List String)
    (conv : FPath → Except String String) (opts : BulkOptions) (fs0 : FS)
    (res : BulkResult)
    (hok : (bulk_convert rootDirs tree destDirs conv opts fs0).1 = .ok res) :
    res.converted + res.skipped + res.failed = res.files.length ∧
    res.total_words = sumWords res.files ∧
    res.total_headings = sumHeadings res.files := by
  obtain ⟨hres, -⟩ := bulk_ok_eq hok
  subst hres
  have hinv := run_loop_inv
    (Q := fun st => st.converted + st.skipped + st.failed = st.results.length ∧
      st.total_words = sumWords st.results ∧ st.total_headings = sumHeadings st.results)
    (process_one conv rootDirs destDirs
      (opts.include_ext.map (fun e => stripDots (lowerStr e)))
      (opts.exclude_ext.map (fun e => stripDots (lowerStr e)))
      opts.on_conflict opts.continue_on_error)
    (fun st f hq => process_one_counts conv rootDirs destDirs
      (opts.include_ext.map (fun e => stripDots (lowerStr e)))
      (opts.exclude_ext.map (fun e => stripDots (lowerStr e)))
      opts.on_conflict opts.continue_on_error st f hq)
    (iter_files rootDirs tree opts.skip_hidden)
    { rs := { fs := fs0.mkdirParents destDirs, calls := [], writes := [] } }
    (by simp [sumWords, sumHeadings])
  exact hinv

/-- Witness for C3 at a concrete run of three files. -/
theorem bulk_totals_witness :
    ((bulk_convert ["r"] treeThree ["out"] convOk {} emptyFS).1.toOption.map
      (fun r => decide (r.converted + r.skipped + r.failed = r.files.length))) =
      some true := by
  have h := bulk_totals ["r"] treeThree ["out"] convOk {} emptyFS
    (bulk_run ["r"] treeThree ["out"] convOk {} emptyFS).1 rfl
  rw [show (bulk_convert ["r"] treeThree ["out"] convOk {} emptyFS).1 =
    .ok (bulk_run ["r"] treeThree ["out"] convOk {} emptyFS).1 from rfl]
  simp only [Except.toOption, Option.map_some']
  simp [h.1]

/-! Branch characterizations of one loop iteration. -/

theorem process_one_filtered_inc (conv : FPath → Except String String)
    (rootDirs destDirs incE excE : List String) (policy : ConflictPolicy)
    (contOnErr : Bool) (st : LoopState) (fp : FPath)
    (hA : incE ≠ [] ∧ ext_of fp ∉ incE) :
    process_one conv rootDirs destDirs incE excE policy contOnErr st fp =
      ({ st with
          results := st.results ++
            [{ src := fp, dest := none, status := .skipped, reason := some "filtered" }],
          skipped := st.skipped + 1 }, false) := by
  unfold process_one
  rw [if_pos hA]

theorem process_one_filtered_exc (conv : FPath → Except String String)
    (rootDirs destDirs incE excE : List String) (policy : ConflictPolicy)
    (contOnErr : Bool) (st : LoopState) (fp : FPath)
    (hA : ¬(incE ≠ [] ∧ ext_of fp ∉ incE)) (hB : excE ≠ [] ∧ ext_of fp ∈ excE) :
    process_one conv rootDirs destDirs incE excE policy contOnErr st fp =
      ({ st with
          results := st.results ++
            [{ src := fp, dest := none, status := .skipped, reason := some "filtered" }],
          skipped := st.skipped + 1 }, false) := by
  unfold process_one
  rw [if_neg hA, if_pos hB]

theorem process_one_error (conv : FPath → Except String String)
    (rootDirs destDirs incE excE : List String) (policy : ConflictPolicy)
    (contOnErr : Bool) (st : LoopState) (fp : FPath) (e : String)
    (hA : ¬(incE ≠ [] ∧ ext_of fp ∉ incE)) (hB : ¬(excE ≠ [] ∧ ext_of fp ∈ excE))
    (he : conv fp = .error e) :
    process_one conv rootDirs destDirs incE excE policy contOnErr st fp =
      ({ st with
          results := st.results ++
            [{ src := fp, dest := none, status := .failed, reason := some e }],
          failed := st.failed + 1,
          rs := { st.rs with calls := st.rs.calls ++ [fp] } }, !contOnErr) := by
  unfold process_one
  rw [if_neg hA, if_neg hB]
  dsimp only
  rw [he]

theorem process_one_rename (conv : FPath → Except String String)
    (rootDirs destDirs incE excE : List String)
    (contOnErr : Bool) (st : LoopState) (fp : FPath) (t : String)
    (hA : ¬(incE ≠ [] ∧ ext_of fp ∉ incE)) (hB : ¬(excE ≠ [] ∧ ext_of fp ∈ excE))
    (ht : conv fp = .ok t) :
    process_one conv rootDirs destDirs incE excE .rename contOnErr st fp =
      ({ st with
          results := st.results ++
            [{ src := fp,
               dest := some (unique_path st.rs.fs (derive_output_path fp rootDirs destDirs)),
               status := .converted,
               words := some (count_words_and_headings t).1,
               headings := some (count_words_and_headings t).2 }],
          converted := st.converted + 1,
          total_words := st.total_words + (count_words_and_headings t).1,
          total_headings := st.total_headings + (count_words_and_headings t).2,
          rs := RunState.write { st.rs with calls := st.rs.calls ++ [fp] }
            (unique_path st.rs.fs (derive_output_path fp rootDirs destDirs)) t }, false) := by
  unfold process_one
  rw [if_neg hA, if_neg hB]
  dsimp only
  rw [ht]

theorem process_one_skip_exists (conv : FPath → Except String String)
    (rootDirs destDirs incE excE : List String)
    (contOnErr : Bool) (st : LoopState) (fp : FPath) (t : String)
    (hA : ¬(incE ≠ [] ∧ ext_of fp ∉ incE)) (hB : ¬(excE ≠ [] ∧ ext_of fp ∈ excE))
    (ht : conv fp = .ok t)
    (hex : st.rs.fs.existsFile (derive_output_path fp rootDirs destDirs) = true) :
    process_one conv rootDirs destDirs incE excE .skip contOnErr st fp =
      ({ st with
          results := st.results ++
            [{ src := fp, dest := none, status := .skipped, reason := some "exists" }],
          skipped := st.skipped + 1,
          rs := { st.rs with calls := st.rs.calls ++ [fp] } }, false) := by
  unfold process_one
  rw [if_neg hA, if_neg hB]
  dsimp only
  rw [ht]
  dsimp only
  rw [if_pos hex]

theorem process_one_skip_write (conv : FPath → Except String String)
    (rootDirs destDirs incE excE : List String)
    (contOnErr : Bool) (st : LoopState) (fp : FPath) (t : String)
    (hA : ¬(incE ≠ [] ∧ ext_of fp ∉ incE)) (hB : ¬(excE ≠ [] ∧ ext_of fp ∈ excE))
    (ht : conv fp = .ok t)
    (hex : st.rs.fs.existsFile (derive_output_path fp rootDirs destDirs) = false) :
    process_one conv rootDirs destDirs incE excE .skip contOnErr st fp =
      ({ st with
          results := st.results ++
            [{ src := fp, dest := some (derive_output_path fp rootDirs destDirs),
               status := .converted,
               words := some (count_words_and_headings t).1,
               headings := some (count_words_and_headings t).2 }],
          converted := st.converted + 1,
          total_words := st.total_words + (count_words_and_headings t).1,
          total_headings := st.total_headings + (count_words_and_headings t).2,
          rs := RunState.write { st.rs with calls := st.rs.calls ++ [fp] }
            (derive_output_path fp rootDirs destDirs) t }, false) := by
  unfold process_one
  rw [if_neg hA, if_neg hB]
  dsimp only
  rw [ht]
  dsimp only
  rw [if_neg (by rw [hex]; exact Bool.false_ne_true)]

/-! Claims about recorded counts and the destination root. -/

theorem process_one_words (conv : FPath → Except String String)
    (rootDirs destDirs incE excE : List String) (policy : ConflictPolicy)
    (contOnErr : Bool) (st : LoopState) (fp : FPath)
    (hQ : ∀ r ∈ st.results, r.status = Status.converted →
      ∃ t, conv r.src = .ok t ∧ r.words = some (pySplit t.data).length ∧
        r.headings = some ((pySplitlines t.data).filter
          (fun line => (line.dropWhile (fun c => isSpace c)).head? == some '#')).length) :
    ∀ r ∈ (process_one conv rootDirs destDirs incE excE policy contOnErr st fp).1.results,
      r.status = Status.converted →
      ∃ t, conv r.src = .ok t ∧ r.words = some (pySplit t.data).length ∧
        r.headings = some ((pySplitlines t.data).filter
          (fun line => (line.dropWhile (fun c => isSpace c)).head? == some '#')).length := by
  by_cases hA : incE ≠ [] ∧ ext_of fp ∉ incE
  · rw [process_one_filtered_inc conv rootDirs destDirs incE excE policy contOnErr st fp hA]
    intro r hr hst
    dsimp only at hr
    rcases List.mem_append.mp hr with hr | hr
    · exact hQ r hr hst
    · rw [List.mem_singleton.mp hr] at hst
      simp at hst
  · by_cases hB : excE ≠ [] ∧ ext_of fp ∈ excE
    · rw [process_one_filtered_exc conv rootDirs destDirs incE excE policy contOnErr st fp hA hB]
      intro r hr hst
      dsimp only at hr
      rcases List.mem_append.mp hr with hr | hr
      · exact hQ r hr hst
      · rw [List.mem_singleton.mp hr] at hst
        simp at hst
    · rcases hc : conv fp with e | t
      · rw [process_one_error conv rootDirs destDirs incE excE policy contOnErr st fp e hA hB hc]
        intro r hr hst
        dsimp only at hr
        rcases List.mem_append.mp hr with hr | hr
        · exact hQ r hr hst
        · rw [List.mem_singleton.mp hr] at hst
          simp at hst
      · cases policy with
        | rename =>
          rw [process_one_rename conv rootDirs destDirs incE excE contOnErr st fp t hA hB hc]
          intro r hr hst
          dsimp only at hr
          rcases List.mem_append.mp hr with hr | hr
          · exact hQ r hr hst
          · rw [List.mem_singleton.mp hr]
            exact ⟨t, hc, rfl, rfl⟩
        | skip =>
          cases hex : st.rs.fs.existsFile (derive_output_path fp rootDirs destDirs) with
          | true =>
            rw [process_one_skip_exists conv rootDirs destDirs incE excE contOnErr st fp t hA hB hc hex]
            intro r hr hst
            dsimp only at hr
            rcases List.mem_append.mp hr with hr | hr
            · exact hQ r hr hst
            · rw [List.mem_singleton.mp hr] at hst
              simp at hst
          | false =>
            rw [process_one_skip_write conv rootDirs destDirs incE excE contOnErr st fp t hA hB hc hex]
            intro r hr hst
            dsimp only at hr
            rcases List.mem_append.mp hr with hr | hr
            · exact hQ r hr hst
            · rw [List.mem_singleton.mp hr]
              exact ⟨t, hc, rfl, rfl⟩

/-- C8: every converted outcome of a completed run records as word count
the number of whitespace-delimited tokens of the text the converter
returned for that file, and as heading count the number of its lines whose
first non-whitespace character is the markdown heading marker. -/
theorem words_headings_recorded (rootDirs : List String) (tree : DirTree)
    (destDirs : List String) (conv : FPath → Except String String)
    (opts : BulkOptions) (fs0 : FS) (res : BulkResult)
    (hok : (bulk_convert rootDirs tree destDirs conv opts fs0).1 = .ok res) :
    ∀ r ∈ res.files, r.status = Status.converted →
      ∃ t, conv r.src = .ok t ∧ r.words = some (pySplit t.data).length ∧
        r.headings = some ((pySplitlines t.data).filter
          (fun line => (line.dropWhile (fun c => isSpace c)).head? == some '#')).length := by
  obtain ⟨hres, -⟩ := bulk_ok_eq hok
  subst hres
  have hinv := run_loop_inv
    (Q := fun st => ∀ r ∈ st.results, r.status = Status.converted →
      ∃ t, conv r.src = .ok t ∧ r.words = some (pySplit t.data).length ∧
        r.headings = some ((pySplitlines t.data).filter
          (fun line => (line.dropWhile (fun c => isSpace c)).head? == some '#')).length)
    (process_one conv rootDirs destDirs
      (opts.include_ext.map (fun e => stripDots (lowerStr e)))
      (opts.exclude_ext.map (fun e => stripDots (lowerStr e)))
      opts.on_conflict opts.continue_on_error)
    (fun st f hq => process_one_words conv rootDirs destDirs
      (opts.include_ext.map (fun e => stripDots (lowerStr e)))
      (opts.exclude_ext.map (fun e => stripDots (lowerStr e)))
      opts.on_conflict opts.continue_on_error st f hq)
    (iter_files rootDirs tree opts.skip_hidden)
    { rs := { fs := fs0.mkdirParents destDirs, calls := [], writes := [] } }
    (by intro r hr; exact absurd hr (List.not_mem_nil r))
  exact hinv

/-- Witness for C8: the single outcome of the one-file run is converted
and its counts match the counts of the converter output. -/
theorem words_headings_recorded_witness :
    ∃ t, convOk ⟨["r"], ⟨"a", ".txt"⟩⟩ = .ok t ∧
      (({ src := ⟨["r"], ⟨"a", ".txt"⟩⟩, dest := some ⟨["out"], ⟨"a", ".md"⟩⟩,
          status := Status.converted, reason := none,
          words := some 4, headings := some 1 } : BulkFileResult)).words =
        some (pySplit t.data).length ∧
      (({ src := ⟨["r"], ⟨"a", ".txt"⟩⟩, dest := some ⟨["out"], ⟨"a", ".md"⟩⟩,
          status := Status.converted, reason := none,
          words := some 4, headings := some 1 } : BulkFileResult)).headings =
        some ((pySplitlines t.data).filter
          (fun line => (line.dropWhile (fun c => isSpace c)).head? == some '#')).length := by
  exact words_headings_recorded ["r"] treeOne ["out"] convOk {} emptyFS
    (bulk_run ["r"] treeOne ["out"] convOk {} emptyFS).1 rfl
    { src := ⟨["r"], ⟨"a", ".txt"⟩⟩, dest := some ⟨["out"], ⟨"a", ".md"⟩⟩,
      status := Status.converted, reason := none, words := some 4, headings := some 1 }
    (by decide) (by decide)

theorem process_one_dirs_mono (conv : FPath → Except String String)
    (rootDirs destDirs incE excE : List String) (policy : ConflictPolicy)
    (contOnErr : Bool) (st : LoopState) (fp : FPath) (a : List String)
    (h : a ∈ st.rs.fs.dirs) :
    a ∈ (process_one conv rootDirs destDirs incE excE policy contOnErr st fp).1.rs.fs.dirs := by
  unfold process_one
  dsimp only
  repeat' (first | split | dsimp only)
  all_goals
    try simp only [RunState.write, write_atomic, FS.mkdirParents, FS.setFile, FS.eraseFile]
  all_goals first
    | exact h
    | exact List.mem_append_left _ h

/-- C10: the destination root directory and all its ancestors exist in the
final filesystem of every bulk_convert call, including calls that raise
PreflightExceeded, because the root is created before the preflight gate. -/
theorem dest_root_created (rootDirs : List String) (tree : DirTree)
    (destDirs : List String) (conv : FPath → Except String String)
    (opts : BulkOptions) (fs0 : FS) :
    destDirs ∈ (bulk_convert rootDirs tree destDirs conv opts fs0).2.fs.dirs ∧
    ∀ a ∈ ancestorDirs destDirs,
      a ∈ (bulk_convert rootDirs tree destDirs conv opts fs0).2.fs.dirs := by
  have hself : destDirs ∈ ancestorDirs destDirs := by
    simp only [ancestorDirs, List.mem_map]
    exact ⟨destDirs.length, by simp, List.take_length destDirs⟩
  have hmain : ∀ a ∈ ancestorDirs destDirs,
      a ∈ (bulk_convert rootDirs tree destDirs conv opts fs0).2.fs.dirs := by
    intro a ha
    rcases bulk_convert_cases rootDirs tree destDirs conv opts fs0 with hcase | hcase
    · rw [hcase]
      have hinv := run_loop_inv (Q := fun st => a ∈ st.rs.fs.dirs)
        (process_one conv rootDirs destDirs
          (opts.include_ext.map (fun e => stripDots (lowerStr e)))
          (opts.exclude_ext.map (fun e => stripDots (lowerStr e)))
          opts.on_conflict opts.continue_on_error)
        (fun st f hq => process_one_dirs_mono conv rootDirs destDirs
          (opts.include_ext.map (fun e => stripDots (lowerStr e)))
          (opts.exclude_ext.map (fun e => stripDots (lowerStr e)))
          opts.on_conflict opts.continue_on_error st f a hq)
        (iter_files rootDirs tree opts.skip_hidden)
        { rs := { fs := fs0.mkdirParents destDirs, calls := [], writes := [] } }
        (by
          simp only [FS.mkdirParents]
          exact List.mem_append_right _ ha)
      show a ∈ ((bulk_run rootDirs tree destDirs conv opts fs0).2).fs.dirs
      have : (bulk_run rootDirs tree destDirs conv opts fs0).2.fs.dirs =
          (bulk_loop_state rootDirs tree destDirs conv opts fs0).rs.fs.dirs ++
          ancestorDirs (reportPath destDirs).dirs := rfl
      rw [this]
      exact List.mem_append_left _ hinv
    · rw [hcase]
      exact List.mem_append_right _ ha
  exact ⟨hmain destDirs hself, hmain⟩

/-- Witness for C10: the destination root directory is present after a
preflight-raising call at concrete inputs. -/
theorem dest_root_created_witness :
    ["out"] ∈ (bulk_convert ["r"] treeThree ["out"] convOk
      { thresholds := some smallTh } emptyFS).2.fs.dirs ∧
    (bulk_convert ["r"] treeThree ["out"] convOk
      { thresholds := some smallTh } emptyFS).1.isOk = false := by
  exact ⟨(dest_root_created ["r"] treeThree ["out"] convOk
    { thresholds := some smallTh } emptyFS).1, by decide⟩

/-! Claim about the preflight gate. -/

/-- C2: bulk_convert raises PreflightExceeded exactly when the preflight
statistics exceed one of the thresholds and the confirmation callback is
absent or returns false; the raised error carries the stats and the
thresholds, its message embeds both, and at the point of the raise no
converter call and no write has happened. -/
theorem preflight_gate (rootDirs : List String) (tree : DirTree) (destDirs : List String)
    (conv : FPath → Except String String) (opts : BulkOptions) (fs0 : FS) :
    ((∃ err, (bulk_convert rootDirs tree destDirs conv opts fs0).1 = .error err) ↔
      (((preflight rootDirs tree opts.skip_hidden).dirs >
          (opts.thresholds.getD defaultThresholds).max_dirs ∨
        (preflight rootDirs tree opts.skip_hidden).files >
          (opts.thresholds.getD defaultThresholds).max_files ∨
        (preflight rootDirs tree opts.skip_hidden).bytes >
          (opts.thresholds.getD defaultThresholds).max_bytes) ∧
        (opts.confirm = none ∨ ∃ f, opts.confirm = some f ∧
          f (preflight rootDirs tree opts.skip_hidden)
            (opts.thresholds.getD defaultThresholds) = false)))
    ∧ (∀ err, (bulk_convert rootDirs tree destDirs conv opts fs0).1 = .error err →
        err.stats = preflight rootDirs tree opts.skip_hidden ∧
        err.thresholds = opts.thresholds.getD defaultThresholds ∧
        err.msg = "Preflight limits exceeded: dirs=" ++
          natStr (preflight rootDirs tree opts.skip_hidden).dirs ++ "/" ++
          natStr (opts.thresholds.getD defaultThresholds).max_dirs ++ ", files=" ++
          natStr (preflight rootDirs tree opts.skip_hidden).files ++ "/" ++
          natStr (opts.thresholds.getD defaultThresholds).max_files ++ ", bytes=" ++
          natStr (preflight rootDirs tree opts.skip_hidden).bytes ++ "/" ++
          natStr (opts.thresholds.getD defaultThresholds).max_bytes ∧
        (bulk_convert rootDirs tree destDirs conv opts fs0).2.calls = [] ∧
        (bulk_convert rootDirs tree destDirs conv opts fs0).2.writes = []) := by
  by_cases hc : (preflight rootDirs tree opts.skip_hidden).dirs >
      (opts.thresholds.getD defaultThresholds).max_dirs ∨
      (preflight rootDirs tree opts.skip_hidden).files >
      (opts.thresholds.getD defaultThresholds).max_files ∨
      (preflight rootDirs tree opts.skip_hidden).bytes >
      (opts.thresholds.getD defaultThresholds).max_bytes
  · cases hcf : opts.confirm with
    | none =>
      have hout : bulk_convert rootDirs tree destDirs conv opts fs0 =
          (.error (mkPreflightExceeded (preflight rootDirs tree opts.skip_hidden)
            (opts.thresholds.getD defaultThresholds)),
           { fs := fs0.mkdirParents destDirs, calls := [], writes := [] }) := by
        unfold bulk_convert
        dsimp only
        rw [if_pos hc, hcf]
      constructor
      · constructor
        · intro _
          exact ⟨hc, Or.inl rfl⟩
        · intro _
          exact ⟨_, by rw [hout]⟩
      · intro err herr
        rw [hout] at herr
        dsimp only at herr
        injection herr with h
        subst h
        exact ⟨rfl, rfl, rfl, by rw [hout], by rw [hout]⟩
    | some f =>
      by_cases hf : f (preflight rootDirs tree opts.skip_hidden)
          (opts.thresholds.getD defaultThresholds) = true
      · have hout : bulk_convert rootDirs tree destDirs conv opts fs0 =
            (.ok (bulk_run rootDirs tree destDirs conv opts fs0).1,
             (bulk_run rootDirs tree destDirs conv opts fs0).2) := by
          unfold bulk_convert
          dsimp only
          rw [if_pos hc, hcf]
          dsimp only
          rw [if_pos hf]
        constructor
        · constructor
          · rintro ⟨err, herr⟩
            rw [hout] at herr
            exact absurd herr (by simp)
          · rintro ⟨-, hd⟩
            exfalso
            rcases hd with hnone | ⟨g, hg, hgf⟩
            · exact Option.noConfusion hnone
            · injection hg with hgf'
              subst hgf'
              rw [hf] at hgf
              exact Bool.noConfusion hgf
        · intro err herr
          rw [hout] at herr
          exact absurd herr (by simp)
      · have hffalse : f (preflight rootDirs tree opts.skip_hidden)
            (opts.thresholds.getD defaultThresholds) = false := by
          cases hb : f (preflight rootDirs tree opts.skip_hidden)
              (opts.thresholds.getD defaultThresholds) with
          | true => exact absurd hb hf
          | false => rfl
        have hout : bulk_convert rootDirs tree destDirs conv opts fs0 =
            (.error (mkPreflightExceeded (preflight rootDirs tree opts.skip_hidden)
              (opts.thresholds.getD defaultThresholds)),
             { fs := fs0.mkdirParents destDirs, calls := [], writes := [] }) := by
          unfold bulk_convert
          dsimp only
          rw [if_pos hc, hcf]
          dsimp only
          rw [if_neg hf]
        constructor
        · constructor
          · intro _
            exact ⟨hc, Or.inr ⟨f, rfl, hffalse⟩⟩
          · intro _
            exact ⟨_, by rw [hout]⟩
        · intro err herr
          rw [hout] at herr
          dsimp only at herr
          injection herr with h
          subst h
          exact ⟨rfl, rfl, rfl, by rw [hout], by rw [hout]⟩
  · have hout : bulk_convert rootDirs tree destDirs conv opts fs0 =
        (.ok (bulk_run rootDirs tree destDirs conv opts fs0).1,
         (bulk_run rootDirs tree destDirs conv opts fs0).2) := by
      unfold bulk_convert
      dsimp only
      rw [if_neg hc]
    constructor
    · constructor
      · rintro ⟨err, herr⟩
        rw [hout] at herr
        exact absurd herr (by simp)
      · rintro ⟨hex, -⟩
        exact absurd hex hc
    · intro err herr
      rw [hout] at herr
      exact absurd herr (by simp)

/-- Witness for C2 at a concrete exceeding run without callback: the raised
message is the fully formatted string and nothing was called or written. -/
theorem preflight_gate_witness :
    (mkPreflightExceeded (preflight ["r"] treeThree true) smallTh).msg =
      "Preflight limits exceeded: dirs=1/1, files=3/2, bytes=3/10" ∧
    (bulk_convert ["r"] treeThree ["out"] convOk
      { thresholds := some smallTh } emptyFS).2.calls = [] ∧
    (bulk_convert ["r"] treeThree ["out"] convOk
      { thresholds := some smallTh } emptyFS).2.writes = [] := by
  have h := (preflight_gate ["r"] treeThree ["out"] convOk
    { thresholds := some smallTh } emptyFS).2
    (mkPreflightExceeded (preflight ["r"] treeThree true) smallTh) rfl
  exact ⟨by decide, h.2.2.2.1, h.2.2.2.2⟩

/-! Claim about per-file failure isolation. -/

/-- C7: a converter failure on a filter-passing candidate records a failed
outcome carrying the error description while leaving the filesystem and
the write trace untouched, and the loop breaks after that outcome exactly
when continue_on_error is false; a breaking step ends the loop with the
outcomes recorded so far, and a non-breaking step hands the updated state
to the rest of the candidates. -/
theorem failure_isolation (conv : FPath → Except String String)
    (rootDirs destDirs incE excE : List String) (policy : ConflictPolicy)
    (contOnErr : Bool) (st : LoopState) (fp : FPath) (e : String)
    (hA : ¬(incE ≠ [] ∧ ext_of fp ∉ incE)) (hB : ¬(excE ≠ [] ∧ ext_of fp ∈ excE))
    (he : conv fp = .error e) :
    (process_one conv rootDirs destDirs incE excE policy contOnErr st fp =
      ({ st with
          results := st.results ++
            [{ src := fp, dest := none, status := .failed, reason := some e }],
          failed := st.failed + 1,
          rs := { st.rs with calls := st.rs.calls ++ [fp] } }, !contOnErr))
    ∧ (∀ (step : LoopState → FPath → LoopState × Bool) (st' : LoopState)
        (rest : List FPath), step st fp = (st', true) →
        run_loop step st (fp :: rest) = st')
    ∧ (∀ (step : LoopState → FPath → LoopState × Bool) (st' : LoopState)
        (rest : List FPath), step st fp = (st', false) →
        run_loop step st (fp :: rest) = run_loop step st' rest) :=
  ⟨process_one_error conv rootDirs destDirs incE excE policy contOnErr st fp e hA hB he,
   fun _ _ rest h => run_loop_cons_break rest h,
   fun _ _ rest h => run_loop_cons_cont rest h⟩

/-- Witness for C7: a concrete failing step under continue_on_error false
breaks the loop with the failed outcome recorded. -/
theorem failure_isolation_witness :
    process_one convFail ["r"] ["out"] [] [] .skip false
      { rs := { fs := emptyFS, calls := [], writes := [] } } ⟨["r"], ⟨"a", ".txt"⟩⟩ =
      ({ results := [{ src := ⟨["r"], ⟨"a", ".txt"⟩⟩, dest := none,
                         status := .failed, reason := some "boom" }],
         converted := 0, skipped := 0, failed := 1,
         total_words := 0, total_headings := 0,
         rs := { fs := emptyFS, calls := [⟨["r"], ⟨"a", ".txt"⟩⟩], writes := [] } }, true) := by
  have h := (failure_isolation convFail ["r"] ["out"] [] [] .skip false
    { rs := { fs := emptyFS, calls := [], writes := [] } } ⟨["r"], ⟨"a", ".txt"⟩⟩ "boom"
    (by simp) (by simp) rfl).1
  exact h

/-! Claim about the skip conflict policy at the single file level. -/

/-- C1 counterexample: under the skip policy with the derived destination
already existing, the converter is still invoked (the call trace is
nonempty) and a converter failure yields a failed outcome rather than the
skipped outcome the claim requires for every such file. -/
theorem skip_checked_after_convert_cex :
    fsWithAMd.existsFile (derive_output_path ⟨["r"], ⟨"a", ".txt"⟩⟩ ["r"] ["out"]) = true ∧
    ((bulk_convert ["r"] treeOne ["out"] convFail skipOpts fsWithAMd).1.toOption.map
      (fun r => r.files.map (fun f => (f.status, f.reason)))) =
      some [(Status.failed, some "boom")] ∧
    (bulk_convert ["r"] treeOne ["out"] convFail skipOpts fsWithAMd).2.calls =
      [⟨["r"], ⟨"a", ".txt"⟩⟩] := by decide

/-- C1 (amended): under the skip policy the conflict check runs only after
the converter has been invoked on the file.  When the converter succeeds
and the derived destination exists, the outcome is skipped with reason
exists and the filesystem and write trace are untouched, but the call
trace grows by that file; when the converter fails on such a file the
outcome is failed, not skipped. -/
theorem skip_conflict_behavior (conv : FPath → Except String String)
    (rootDirs destDirs incE excE : List String)
    (contOnErr : Bool) (st : LoopState) (fp : FPath)
    (hA : ¬(incE ≠ [] ∧ ext_of fp ∉ incE)) (hB : ¬(excE ≠ [] ∧ ext_of fp ∈ excE))
    (hex : st.rs.fs.existsFile (derive_output_path fp rootDirs destDirs) = true) :
    (∀ t, conv fp = .ok t →
      process_one conv rootDirs destDirs incE excE .skip contOnErr st fp =
        ({ st with
            results := st.results ++
              [{ src := fp, dest := none, status := .skipped, reason := some "exists" }],
            skipped := st.skipped + 1,
            rs := { st.rs with calls := st.rs.calls ++ [fp] } }, false))
    ∧ (∀ e, conv fp = .error e →
      process_one conv rootDirs destDirs incE excE .skip contOnErr st fp =
        ({ st with
            results := st.results ++
              [{ src := fp, dest := none, status := .failed, reason := some e }],
            failed := st.failed + 1,
            rs := { st.rs with calls := st.rs.calls ++ [fp] } }, !contOnErr)) :=
  ⟨fun t ht => process_one_skip_exists conv rootDirs destDirs incE excE contOnErr
      st fp t hA hB ht hex,
   fun e he => process_one_error conv rootDirs destDirs incE excE .skip contOnErr
      st fp e hA hB he⟩

/-- Witness for the amended C1: a concrete skip-policy step on a file whose
destination exists records the skipped outcome while the converter call is
traced. -/
theorem skip_conflict_behavior_witness :
    process_one convOk ["r"] ["out"] [] [] .skip true
      { rs := { fs := fsWithAMd, calls := [], writes := [] } } ⟨["r"], ⟨"a", ".txt"⟩⟩ =
      ({ results := [{ src := ⟨["r"], ⟨"a", ".txt"⟩⟩, dest := none,
                         status := .skipped, reason := some "exists" }],
         converted := 0, skipped := 1, failed := 0,
         total_words := 0, total_headings := 0,
         rs := { fs := fsWithAMd, calls := [⟨["r"], ⟨"a", ".txt"⟩⟩], writes := [] } }, false) := by
  have h := (skip_conflict_behavior convOk ["r"] ["out"] [] [] true
    { rs := { fs := fsWithAMd, calls := [], writes := [] } } ⟨["r"], ⟨"a", ".txt"⟩⟩
    (by simp) (by simp) (by decide)).1 "# h\n\nhello world" rfl
  exact h

/-! Claim about hidden-entry exclusion. -/

theorem filterMap_skip_true (pre : List String) (files : List FileEntry) :
    files.filterMap (fun f => if true && hiddenName f.fname.name then none
      else some (⟨pre, f.fname⟩ : FPath)) =
    (files.filter (fun f => !hiddenName f.fname.name)).map
      (fun f => (⟨pre, f.fname⟩ : FPath)) := by
  induction files with
  | nil => rfl
  | cons a l ih =>
    cases h : hiddenName a.fname.name <;>
      simp_all [List.filterMap_cons, List.filter_cons]

theorem filterMap_skip_false (pre : List String) (files : List FileEntry) :
    files.filterMap (fun f => if false && hiddenName f.fname.name then none
      else some (⟨pre, f.fname⟩ : FPath)) =
    files.map (fun f => (⟨pre, f.fname⟩ : FPath)) := by
  induction files with
  | nil => rfl
  | cons a l ih => simp_all [List.filterMap_cons]

mutual
theorem iter_prune_tree : ∀ (pre : List String) (t : DirTree),
    iter_files_aux pre true t = iter_files_aux pre false (pruneTree t)
  | pre, .node subdirs files => by
    simp only [iter_files_aux, pruneTree]
    rw [filterMap_skip_true, filterMap_skip_false, iter_prune_list pre subdirs]
theorem iter_prune_list : ∀ (pre : List String) (l : DirList),
    iter_files_auxL pre true l = iter_files_auxL pre false (pruneList l)
  | _, .nil => rfl
  | pre, .cons nm t rest => by
    cases h : hiddenName nm with
    | true =>
      simp only [iter_files_auxL, pruneList, h, Bool.true_and, Bool.false_and,
        if_true, List.nil_append]
      exact iter_prune_list pre rest
    | false =>
      simp only [iter_files_auxL, pruneList, h, Bool.true_and, Bool.false_and,
        if_false, Bool.false_eq_true]
      rw [iter_prune_tree (pre ++ [nm]) t, iter_prune_list pre rest]
end

mutual
theorem preflight_prune_tree : ∀ t : DirTree,
    preflightAux true t = preflightAux false (pruneTree t)
  | .node subdirs files => by
    simp only [preflightAux, pruneTree]
    rw [preflight_prune_list subdirs]
    simp
theorem preflight_prune_list : ∀ l : DirList,
    preflightAuxL true l = preflightAuxL false (pruneList l)
  | .nil => rfl
  | .cons nm t rest => by
    cases h : hiddenName nm with
    | true =>
      simp only [preflightAuxL, pruneList, h, Bool.true_and, Bool.false_and, if_true]
      exact preflight_prune_list rest
    | false =>
      simp only [preflightAuxL, pruneList, h, Bool.true_and, Bool.false_and,
        if_false, Bool.false_eq_true]
      rw [preflight_prune_tree t, preflight_prune_list rest]
end

mutual
theorem iter_hidden_tree : ∀ (pre : List String) (t : DirTree) (p : FPath),
    p ∈ iter_files_aux pre true t →
    (∃ rel, p.dirs = pre ++ rel ∧ ∀ c ∈ rel, hiddenName c = false) ∧
      hiddenName p.name = false
  | pre, .node subdirs files, p => by
    intro hp
    simp only [iter_files_aux, List.mem_append] at hp
    rcases hp with hp | hp
    · rw [List.mem_filterMap] at hp
      obtain ⟨f, hf, hsome⟩ := hp
      simp only [Bool.true_and] at hsome
      cases h : hiddenName f.fname.name with
      | true =>
        rw [if_pos (by rw [h])] at hsome
        exact Option.noConfusion hsome
      | false =>
        rw [if_neg (by rw [h]; exact Bool.false_ne_true)] at hsome
        have hpeq : p = ⟨pre, f.fname⟩ := (Option.some.inj hsome).symm
        subst hpeq
        exact ⟨⟨[], by simp, by simp⟩, h⟩
    · exact iter_hidden_list pre subdirs p hp
theorem iter_hidden_list : ∀ (pre : List String) (l : DirList) (p : FPath),
    p ∈ iter_files_auxL pre true l →
    (∃ rel, p.dirs = pre ++ rel ∧ ∀ c ∈ rel, hiddenName c = false) ∧
      hiddenName p.name = false
  | pre, .nil, p => fun hp => absurd hp (List.not_mem_nil p)
  | pre, .cons nm t rest, p => by
    intro hp
    simp only [iter_files_auxL, List.mem_append, Bool.true_and] at hp
    rcases hp with hp | hp
    · cases h : hiddenName nm with
      | true =>
        rw [if_pos (by rw [h])] at hp
        exact absurd hp (List.not_mem_nil p)
      | false =>
        rw [if_neg (by rw [h]; exact Bool.false_ne_true)] at hp
        obtain ⟨⟨rel, hdirs, hrel⟩, hname⟩ := iter_hidden_tree (pre ++ [nm]) t p hp
        refine ⟨⟨nm :: rel, by rw [hdirs]; simp, ?_⟩, hname⟩
        intro c hc
        rcases List.mem_cons.mp hc with rfl | hc
        · exact h
        · exact hrel c hc
    · exact iter_hidden_list pre rest p hp
end

/-- C6: with skip_hidden set, every yielded candidate has no hidden
component below the root and no hidden name; the traversal and the
preflight statistics both agree with the walk of the tree from which every
hidden entry has been removed, so hidden files and directories contribute
neither output nor directory, file or byte counts. -/
theorem hidden_exclusion (rootDirs : List String) (t : DirTree) :
    (∀ p ∈ iter_files rootDirs t true,
      (∀ c ∈ p.dirs.drop rootDirs.length, hiddenName c = false) ∧
        hiddenName p.name = false)
    ∧ iter_files rootDirs t true = iter_files rootDirs (pruneTree t) false
    ∧ preflight rootDirs t true = preflight rootDirs (pruneTree t) false := by
  refine ⟨?_, iter_prune_tree rootDirs t, ?_⟩
  · intro p hp
    obtain ⟨⟨rel, hdirs, hrel⟩, hname⟩ := iter_hidden_tree rootDirs t p hp
    refine ⟨?_, hname⟩
    rw [hdirs, List.drop_left]
    exact hrel
  · unfold preflight
    rw [preflight_prune_tree t]

/-- Witness for C6 at the concrete tree with hidden entries: the yielded
candidate below the visible directory has no hidden component, and the
preflight statistics agree with the pruned tree. -/
theorem hidden_exclusion_witness :
    ((∀ c ∈ (⟨["r", "b"], ⟨"g", ".docx"⟩⟩ : FPath).dirs.drop (["r"] : List String).length,
        hiddenName c = false) ∧
      hiddenName (FPath.name ⟨["r", "b"], ⟨"g", ".docx"⟩⟩) = false) ∧
    preflight ["r"] treeHidden true = preflight ["r"] (pruneTree treeHidden) false := by
  exact ⟨(hidden_exclusion ["r"] treeHidden).1 ⟨["r", "b"], ⟨"g", ".docx"⟩⟩ (by decide),
    (hidden_exclusion ["r"] treeHidden).2.2⟩

/-! Claim about the atomic writer. -/

/-- C9: write_atomic ensures the ancestors of the destination exist,
stages the content in a temporary sibling and installs it with a single
replace; in every state of its micro-step trace the destination holds
either its old content or the complete new content, never a partial
prefix, and in the final state it holds the new content. -/
theorem write_atomic_spec (fs : FS) (dest : FPath) (data : String) :
    (∀ s ∈ write_atomic_states fs dest data,
      s.get dest = fs.get dest ∨ s.get dest = some data)
    ∧ (write_atomic_states fs dest data).getLast? = some (write_atomic fs dest data)
    ∧ (write_atomic fs dest data).get dest = some data
    ∧ (∀ a ∈ ancestorDirs dest.dirs, a ∈ (write_atomic fs dest data).dirs)
    ∧ (tmpPath dest).dirs = dest.dirs ∧ tmpPath dest ≠ dest := by
  refine ⟨?_, ?_, write_atomic_get_self fs dest data, ?_, rfl, tmpPath_ne dest⟩
  · intro s hs
    simp only [write_atomic_states, List.mem_append, List.mem_cons, List.mem_singleton,
      List.not_mem_nil, or_false, List.mem_map] at hs
    rcases hs with ((rfl | rfl) | ⟨pre, hpre, rfl⟩) | rfl
    · exact Or.inl rfl
    · exact Or.inl rfl
    · exact Or.inl (FS.get_setFile_ne _ _ _ _ (Ne.symm (tmpPath_ne dest)))
    · exact Or.inr (write_atomic_get_self fs dest data)
  · show ((([fs, fs.mkdirParents dest.dirs] ++ _) ++ [write_atomic fs dest data]).getLast? = _)
    rw [List.getLast?_concat]
  · intro a ha
    rw [write_atomic_dirs]
    exact List.mem_append_right _ ha

/-- Witness for C9 at a concrete state of the trace: the temporary file
state leaves the destination content untouched and the final state holds
the new content. -/
theorem write_atomic_spec_witness :
    ((fsWithAMd.mkdirParents (["out"] : List String)).setFile
        (tmpPath ⟨["out"], ⟨"a", ".md"⟩⟩) "").get ⟨["out"], ⟨"a", ".md"⟩⟩ =
      fsWithAMd.get ⟨["out"], ⟨"a", ".md"⟩⟩ ∨
    ((fsWithAMd.mkdirParents (["out"] : List String)).setFile
        (tmpPath ⟨["out"], ⟨"a", ".md"⟩⟩) "").get ⟨["out"], ⟨"a", ".md"⟩⟩ = some "new" := by
  have h := (write_atomic_spec fsWithAMd ⟨["out"], ⟨"a", ".md"⟩⟩ "new").1
    ((fsWithAMd.mkdirParents (["out"] : List String)).setFile
      (tmpPath ⟨["out"], ⟨"a", ".md"⟩⟩) "") (by decide)
  exact h

/-! Helper lemmas for the skip-policy idempotence claim. -/

theorem process_one_exists_md_mono (conv : FPath → Except String String)
    (rootDirs destDirs incE excE : List String) (policy : ConflictPolicy)
    (contOnErr : Bool) (st : LoopState) (fp : FPath) (q : FPath)
    (hq : q.fname.ext = ".md") (h : st.rs.fs.existsFile q = true) :
    (process_one conv rootDirs destDirs incE excE policy contOnErr st fp).1.rs.fs.existsFile q
      = true := by
  unfold process_one
  dsimp only
  repeat' (first | split | dsimp only)
  all_goals first
    | exact h
    | exact write_atomic_existsFile_true _ _ _ _ (md_ne_tmpPath _ _ hq) h

theorem loop_exists_md_mono (conv : FPath → Except String String)
    (rootDirs destDirs incE excE : List String) (policy : ConflictPolicy)
    (contOnErr : Bool) (l : List FPath) (st : LoopState) (q : FPath)
    (hq : q.fname.ext = ".md") (h : st.rs.fs.existsFile q = true) :
    (run_loop (process_one conv rootDirs destDirs incE excE policy contOnErr) st l).rs.fs.existsFile q
      = true :=
  run_loop_inv (Q := fun st => st.rs.fs.existsFile q = true) _
    (fun st f hx => process_one_exists_md_mono conv rootDirs destDirs incE excE policy
      contOnErr st f q hq hx) l st h

theorem skip_loop_converts (conv : FPath → Except String String)
    (rootDirs destDirs : List String) (contOnErr : Bool) :
    ∀ (l : List FPath) (st : LoopState),
    l.Nodup →
    (∀ f ∈ l, ∃ t, conv f = .ok t) →
    (∀ f ∈ l, st.rs.fs.existsFile (derive_output_path f rootDirs destDirs) = false) →
    (∀ f ∈ l, ∀ g ∈ l, derive_output_path f rootDirs destDirs =
      derive_output_path g rootDirs destDirs → f = g) →
    (∀ r ∈ (run_loop (process_one conv rootDirs destDirs [] [] .skip contOnErr) st l).results,
        r ∈ st.results ∨ (r.status = Status.converted ∧ r.src ∈ l))
    ∧ (∀ f ∈ l, (run_loop (process_one conv rootDirs destDirs [] [] .skip contOnErr) st l).rs.fs.existsFile
        (derive_output_path f rootDirs destDirs) = true)
    ∧ (run_loop (process_one conv rootDirs destDirs [] [] .skip contOnErr) st l).results.length
        = st.results.length + l.length := by
  intro l
  induction l with
  | nil =>
    intro st _ _ _ _
    exact ⟨fun r hr => Or.inl hr, fun f hf => absurd hf (List.not_mem_nil f), by
      rw [run_loop_nil]; simp⟩
  | cons f rest ih =>
    intro st hnd hconv hfresh hinj
    obtain ⟨t, ht⟩ := hconv f (List.mem_cons_self f rest)
    have hexf : st.rs.fs.existsFile (derive_output_path f rootDirs destDirs) = false :=
      hfresh f (List.mem_cons_self f rest)
    have hstep := process_one_skip_write conv rootDirs destDirs [] [] contOnErr st f t
      (by simp) (by simp) ht hexf
    rw [run_loop_cons_cont rest hstep]
    set st1 : LoopState :=
      { st with
          results := st.results ++
            [{ src := f, dest := some (derive_output_path f rootDirs destDirs),
               status := .converted,
               words := some (count_words_and_headings t).1,
               headings := some (count_words_and_headings t).2 }],
          converted := st.converted + 1,
          total_words := st.total_words + (count_words_and_headings t).1,
          total_headings := st.total_headings + (count_words_and_headings t).2,
          rs := RunState.write { st.rs with calls := st.rs.calls ++ [f] }
            (derive_output_path f rootDirs destDirs) t } with hst1
    have hfmem : f ∉ rest := (List.nodup_cons.mp hnd).1
    have hnd' : rest.Nodup := (List.nodup_cons.mp hnd).2
    have hfs1 : st1.rs.fs =
        write_atomic st.rs.fs (derive_output_path f rootDirs destDirs) t := rfl
    have hfresh' : ∀ g ∈ rest,
        st1.rs.fs.existsFile (derive_output_path g rootDirs destDirs) = false := by
      intro g hg
      have hne : derive_output_path g rootDirs destDirs ≠
          derive_output_path f rootDirs destDirs := by
        intro hdd
        exact hfmem (hinj g (List.mem_cons_of_mem f hg) f (List.mem_cons_self f rest) hdd ▸ hg)
      rw [hfs1]
      exact write_atomic_existsFile_false _ _ _ _ hne (md_ne_tmpPath _ _ rfl)
        (hfresh g (List.mem_cons_of_mem f hg))
    obtain ⟨ihres, ihex, ihlen⟩ := ih st1 hnd'
      (fun g hg => hconv g (List.mem_cons_of_mem f hg)) hfresh'
      (fun a ha b hb => hinj a (List.mem_cons_of_mem f ha) b (List.mem_cons_of_mem f hb))
    refine ⟨?_, ?_, ?_⟩
    · intro r hr
      rcases ihres r hr with hr' | hr'
      · have hres1 : st1.results = st.results ++
            [{ src := f, dest := some (derive_output_path f rootDirs destDirs),
               status := .converted,
               words := some (count_words_and_headings t).1,
               headings := some (count_words_and_headings t).2 }] := rfl
        rw [hres1] at hr'
        rcases List.mem_append.mp hr' with hr'' | hr''
        · exact Or.inl hr''
        · rw [List.mem_singleton.mp hr'']
          exact Or.inr ⟨rfl, List.mem_cons_self f rest⟩
      · exact Or.inr ⟨hr'.1, List.mem_cons_of_mem f hr'.2⟩
    · intro g hg
      rcases List.mem_cons.mp hg with rfl | hg'
      · have h1 : st1.rs.fs.existsFile (derive_output_path g rootDirs destDirs) = true := by
          rw [hfs1]
          unfold FS.existsFile
          rw [write_atomic_get_self]
          rfl
        exact loop_exists_md_mono conv rootDirs destDirs [] [] .skip contOnErr rest st1
          (derive_output_path g rootDirs destDirs) rfl h1
      · exact ihex g hg'
    · rw [ihlen]
      have hres1 : st1.results.length = st.results.length + 1 := by
        rw [show st1.results = st.results ++ [_] from rfl]
        simp
      rw [hres1]
      simp [List.length_cons]
      omega

theorem skip_loop_skips (conv : FPath → Except String String)
    (rootDirs destDirs : List String) (contOnErr : Bool) :
    ∀ (l : List FPath) (st : LoopState),
    (∀ f ∈ l, ∃ t, conv f = .ok t) →
    (∀ f ∈ l, st.rs.fs.existsFile (derive_output_path f rootDirs destDirs) = true) →
    run_loop (process_one conv rootDirs destDirs [] [] .skip contOnErr) st l =
      { st with
          results := st.results ++ l.map (fun f =>
            { src := f, dest := none, status := .skipped, reason := some "exists" }),
          skipped := st.skipped + l.length,
          rs := { st.rs with calls := st.rs.calls ++ l } } := by
  intro l
  induction l with
  | nil =>
    intro st _ _
    rw [run_loop_nil]
    cases st with
    | mk results converted skipped failed total_words total_headings rs =>
      cases rs with
      | mk fs calls writes => simp
  | cons f rest ih =>
    intro st hconv hex
    obtain ⟨t, ht⟩ := hconv f (List.mem_cons_self f rest)
    have hstep := process_one_skip_exists conv rootDirs destDirs [] [] contOnErr st f t
      (by simp) (by simp) ht (hex f (List.mem_cons_self f rest))
    rw [run_loop_cons_cont rest hstep]
    set st1 : LoopState :=
      { st with
          results := st.results ++
            [{ src := f, dest := none, status := .skipped, reason := some "exists" }],
          skipped := st.skipped + 1,
          rs := { st.rs with calls := st.rs.calls ++ [f] } } with hst1
    rw [ih st1 (fun g hg => hconv g (List.mem_cons_of_mem f hg))
      (fun g hg => hex g (List.mem_cons_of_mem f hg))]
    simp only [hst1]
    simp [List.append_assoc]
    omega

theorem bulk_ok_of_ok (rootDirs : List String) (tree : DirTree) (destDirs : List String)
    (conv : FPath → Except String String) (opts : BulkOptions) (fs0 fs1 : FS)
    (res : BulkResult)
    (h : (bulk_convert rootDirs tree destDirs conv opts fs0).1 = .ok res) :
    (bulk_convert rootDirs tree destDirs conv opts fs1).1 =
      .ok (bulk_run rootDirs tree destDirs conv opts fs1).1 := by
  unfold bulk_convert at h ⊢
  dsimp only at h ⊢
  by_cases hc : (preflight rootDirs tree opts.skip_hidden).dirs >
      (opts.thresholds.getD defaultThresholds).max_dirs ∨
      (preflight rootDirs tree opts.skip_hidden).files >
      (opts.thresholds.getD defaultThresholds).max_files ∨
      (preflight rootDirs tree opts.skip_hidden).bytes >
      (opts.thresholds.getD defaultThresholds).max_bytes
  · rw [if_pos hc] at h ⊢
    cases hcf : opts.confirm with
    | none =>
      rw [hcf] at h
      exact absurd h (by simp)
    | some f =>
      rw [hcf] at h
      dsimp only at h
      dsimp only
      by_cases hf : f (preflight rootDirs tree opts.skip_hidden)
          (opts.thresholds.getD defaultThresholds) = true
      · rw [if_pos hf]
      · rw [if_neg hf] at h
        exact absurd h (by simp)
  · rw [if_neg hc]

/-- C4 counterexample: two sources with the same stem derive the same
destination, so under the skip policy the first run already records one of
them as skipped rather than converting every candidate; moreover, even in
the collision-free scenario the second run replaces the existing
process_report.md, so a file is overwritten during the second run. -/
theorem skip_idempotent_cex :
    ((bulk_convert ["r"] treeCollide ["out"] convOk skipOpts emptyFS).1.toOption.map
      (fun r => r.files.map (fun f => (f.status, f.reason)))) =
      some [(Status.converted, none), (Status.skipped, some "exists")] ∧
    (bulk_convert ["r"] treeTwoDistinct ["out"] convOk skipOpts
      (bulk_convert ["r"] treeTwoDistinct ["out"] convOk skipOpts emptyFS).2.fs).2.writes =
      [(reportPath ["out"], true)] := by decide

/-- C4 (amended): for a skip-policy bulk_convert with empty extension
filters whose candidates have pairwise distinct derived destinations, none
of which exists beforehand, and whose converter succeeds everywhere: the
first run converts every candidate, rerunning it against the resulting
destination records every candidate as skipped with reason exists, and the
only write of the second run is the rewrite of the existing
process_report.md summary, so no converted output file is overwritten. -/
theorem skip_idempotent (rootDirs : List String) (tree : DirTree) (destDirs : List String)
    (conv : FPath → Except String String) (opts : BulkOptions) (fs0 : FS)
    (res1 : BulkResult)
    (hpol : opts.on_conflict = .skip)
    (hinc : opts.include_ext = []) (hexc : opts.exclude_ext = [])
    (hconv : ∀ f ∈ iter_files rootDirs tree opts.skip_hidden, ∃ t, conv f = .ok t)
    (hnd : (iter_files rootDirs tree opts.skip_hidden).Nodup)
    (hfresh : ∀ f ∈ iter_files rootDirs tree opts.skip_hidden,
      fs0.existsFile (derive_output_path f rootDirs destDirs) = false)
    (hinj : ∀ f ∈ iter_files rootDirs tree opts.skip_hidden,
      ∀ g ∈ iter_files rootDirs tree opts.skip_hidden,
      derive_output_path f rootDirs destDirs = derive_output_path g rootDirs destDirs →
        f = g)
    (hok : (bulk_convert rootDirs tree destDirs conv opts fs0).1 = .ok res1) :
    (∀ r ∈ res1.files, r.status = Status.converted)
    ∧ (∃ res2,
        (bulk_convert rootDirs tree destDirs conv opts
          (bulk_convert rootDirs tree destDirs conv opts fs0).2.fs).1 = .ok res2
        ∧ ∀ r ∈ res2.files, r.status = Status.skipped ∧ r.reason = some "exists")
    ∧ (bulk_convert rootDirs tree destDirs conv opts
        (bulk_convert rootDirs tree destDirs conv opts fs0).2.fs).2.writes =
      [(reportPath destDirs, true)] := by
  obtain ⟨hres1, hst1⟩ := bulk_ok_eq hok
  have hloop : ∀ fs : FS, bulk_loop_state rootDirs tree destDirs conv opts fs =
      run_loop (process_one conv rootDirs destDirs [] [] .skip opts.continue_on_error)
        { rs := { fs := fs.mkdirParents destDirs, calls := [], writes := [] } }
        (iter_files rootDirs tree opts.skip_hidden) := by
    intro fs
    unfold bulk_loop_state
    rw [hinc, hexc, hpol]
    rfl
  obtain ⟨hres, hex1, -⟩ := skip_loop_converts conv rootDirs destDirs opts.continue_on_error
    (iter_files rootDirs tree opts.skip_hidden)
    { rs := { fs := fs0.mkdirParents destDirs, calls := [], writes := [] } }
    hnd hconv (fun f hf => hfresh f hf) hinj
  have hok2 := bulk_ok_of_ok rootDirs tree destDirs conv opts fs0
    (bulk_convert rootDirs tree destDirs conv opts fs0).2.fs res1 hok
  have hfs1eq : (bulk_convert rootDirs tree destDirs conv opts fs0).2.fs =
      write_atomic (bulk_loop_state rootDirs tree destDirs conv opts fs0).rs.fs
        (reportPath destDirs) (make_report (bulk_run rootDirs tree destDirs conv opts fs0).1) := by
    rw [hst1]
    rfl
  have hex2 : ∀ f ∈ iter_files rootDirs tree opts.skip_hidden,
      ((bulk_convert rootDirs tree destDirs conv opts fs0).2.fs).existsFile
        (derive_output_path f rootDirs destDirs) = true := by
    intro f hf
    rw [hfs1eq]
    refine write_atomic_existsFile_true _ _ _ _ (md_ne_tmpPath _ _ rfl) ?_
    rw [hloop fs0]
    exact hex1 f hf
  have hloop2 := skip_loop_skips conv rootDirs destDirs opts.continue_on_error
    (iter_files rootDirs tree opts.skip_hidden)
    { rs := { fs := ((bulk_convert rootDirs tree destDirs conv opts fs0).2.fs).mkdirParents destDirs,
              calls := [], writes := [] } }
    hconv (fun f hf => hex2 f hf)
  refine ⟨?_, ⟨(bulk_run rootDirs tree destDirs conv opts
    (bulk_convert rootDirs tree destDirs conv opts fs0).2.fs).1, hok2, ?_⟩, ?_⟩
  · intro r hr
    have hfiles : res1.files =
        (bulk_loop_state rootDirs tree destDirs conv opts fs0).results := by
      rw [hres1]
      rfl
    rw [hfiles, hloop fs0] at hr
    rcases hres r hr with h0 | h0
    · exact absurd h0 (List.not_mem_nil r)
    · exact h0.1
  · intro r hr
    have hfiles2 : (bulk_run rootDirs tree destDirs conv opts
        (bulk_convert rootDirs tree destDirs conv opts fs0).2.fs).1.files =
        (bulk_loop_state rootDirs tree destDirs conv opts
          (bulk_convert rootDirs tree destDirs conv opts fs0).2.fs).results := rfl
    rw [hfiles2, hloop _, hloop2] at hr
    dsimp only at hr
    rw [List.nil_append] at hr
    obtain ⟨f, -, rfl⟩ := List.mem_map.mp hr
    exact ⟨rfl, rfl⟩
  · have h2 := bulk_ok_eq hok2
    rw [h2.2]
    have hw : (bulk_run rootDirs tree destDirs conv opts
        (bulk_convert rootDirs tree destDirs conv opts fs0).2.fs).2.writes =
        (bulk_loop_state rootDirs tree destDirs conv opts
          (bulk_convert rootDirs tree destDirs conv opts fs0).2.fs).rs.writes ++
        [(reportPath destDirs,
          (bulk_loop_state rootDirs tree destDirs conv opts
            (bulk_convert rootDirs tree destDirs conv opts fs0).2.fs).rs.fs.existsFile
              (reportPath destDirs))] := rfl
    rw [hw, hloop _, hloop2]
    dsimp only
    have hrep : (((bulk_convert rootDirs tree destDirs conv opts fs0).2.fs).mkdirParents
        destDirs).existsFile (reportPath destDirs) = true := by
      show ((bulk_convert rootDirs tree destDirs conv opts fs0).2.fs).existsFile
        (reportPath destDirs) = true
      rw [hfs1eq]
      unfold FS.existsFile
      rw [write_atomic_get_self]
      rfl
    rw [hrep]
    rfl

/-- Witness for the amended C4 at a concrete two-file tree with distinct
stems: the second run only rewrites the report. -/
theorem skip_idempotent_witness :
    (bulk_convert ["r"] treeTwoDistinct ["out"] convOk skipOpts
      (bulk_convert ["r"] treeTwoDistinct ["out"] convOk skipOpts emptyFS).2.fs).2.writes =
      [(reportPath ["out"], true)] := by
  have h := skip_idempotent ["r"] treeTwoDistinct ["out"] convOk skipOpts emptyFS
    (bulk_run ["r"] treeTwoDistinct ["out"] convOk skipOpts emptyFS).1
    rfl rfl rfl
    (fun f _ => ⟨"# h\n\nhello world", rfl⟩)
    (by decide) (by decide) (by decide) rfl
  exact h.2.2

end MarkItDown
